import Mathlib

/-!
# kubectl `ClientCache` (pkg/kubectl/cmd/util/clientcache.go)

A shallow embedding of `ClientCache.ClientConfigForVersion` and
`ClientCache.ClientForVersion`.

The two Go maps are total functions `String → Option _` (absent key = `none`).
Pointers to configurations are modelled by the configuration value they point
to ("equal by content"); pointers to clients are opaque handles.

The collaborators that live in other packages (the config loader, the server
version check, the group-version parser, the registry of versions, the
negotiator, the default filler, the client constructor and the string form of a
group-version) are parameters.  The ones that talk to the outside world thread
an arbitrary world state `W`, so they may answer differently on every call.
Every collaborator invocation is appended, with its arguments and its result,
to a trace carried next to the cache.

Conventions of the embedding:
* a collaborator that returns `(*T, error)` returns a non-nil pointer when the
  error is nil (`Except Error T`);
* `config.GroupVersion` is a pointer, `Option GroupVersion` here; calling
  `String()` through a nil one (lines 94 and 114) is a panic, which is a third
  outcome of a call next to a value and an error;
* between two calls nobody writes through a `*Config` the cache handed out.
-/

namespace KubectlUtil

/-- Go `error` values. -/
abbrev Error := String

/-- The type `unversioned.GroupVersion`. -/
structure GroupVersion where
  Group : String
  Version : String
deriving DecidableEq, Repr

/-- A `*client.Client`: only the identity of the handle matters here. -/
abbrev Client := Nat

/-- The type `client.Config`: the `GroupVersion` pointer (possibly nil) and two of the
version-independent fields, which stand for all the others. -/
structure Config where
  Host : String
  UserAgent : String
  GroupVersion : Option KubectlUtil.GroupVersion
deriving DecidableEq, Repr

deriving instance DecidableEq for Except

/-- One collaborator invocation, with its arguments and what it returned. -/
inductive Event where
  | ClientConfig (result : Except Error Config)
  | MatchesServerVersion (client : Option Client) (config : Config) (result : Option Error)
  | ParseGroupVersion (arg : String) (result : Except Error GroupVersion)
  | NegotiateVersion (client : Option Client) (config : Config)
      (preferredGV : Option GroupVersion) (registeredGVs : List GroupVersion)
      (result : Except Error GroupVersion)
  | New (config : Config) (result : Except Error Client)
deriving DecidableEq

/-- What a Go call can do: return a value, return an error, or panic
(a nil pointer dereference). -/
inductive Result (α : Type) where
  | ok (a : α)
  | error (err : Error)
  | panic
deriving DecidableEq

/-- The collaborators of the cache that are package-level functions or variables.
`W` is the state of the outside world.  A collaborator that receives a `*Config`
only reads it; `SetKubernetesDefaults` is the one that writes through the pointer
(its error result is dropped by the caller at line 88). -/
structure Env (W : Type) where
  /-- The function `client.MatchesServerVersion(client, config)`: `none` is a nil error. -/
  MatchesServerVersion : Option Client → Config → W → Option Error × W
  /-- The function `unversioned.ParseGroupVersion`. -/
  ParseGroupVersion : String → Except Error GroupVersion
  /-- The variable `registered.RegisteredVersions`. -/
  RegisteredVersions : List String
  /-- The function `client.NegotiateVersion(client, config, preferredGV, registeredGVs)`. -/
  NegotiateVersion : Option Client → Config → Option GroupVersion → List GroupVersion →
    W → Except Error GroupVersion × W
  /-- The function `client.SetKubernetesDefaults(&config)`, as the configuration it leaves. -/
  SetKubernetesDefaults : Config → Config
  /-- The function `client.New(config)`. -/
  New : Config → W → Except Error Client × W
  /-- The method `GroupVersion.String()`. -/
  gvString : GroupVersion → String

/-- The struct `ClientCache`. `loader.ClientConfig()` is the field `loader`. -/
structure ClientCache (W : Type) where
  loader : W → Except Error Config × W
  clients : String → Option Client
  configs : String → Option Config
  defaultConfig : Option Config
  defaultClient : Option Client
  matchVersion : Bool

/-- Map assignment `m[k] = v`. -/
def assign {α : Type} (m : String → Option α) (k : String) (v : α) : String → Option α :=
  fun k' => if k' = k then some v else m k'

/-- The function `NewClientCache`: empty tables, zero values for the other fields. -/
def NewClientCache {W : Type} (loader : W → Except Error Config × W) : ClientCache W :=
  { loader := loader
    clients := fun _ => none
    configs := fun _ => none
    defaultConfig := none
    defaultClient := none
    matchVersion := false }

/-- The cache together with the world its collaborators act on and the trace of
collaborator invocations made so far. -/
structure State (W : Type) where
  cache : ClientCache W
  world : W
  trace : List Event

variable {W : Type}

/-- Lines 47-58 of `ClientConfigForVersion`: the lazy load of the default
configuration.  `some err` is the early `return nil, err`. -/
def loadDefault (env : Env W) (s : State W) : Option Error × State W :=
  match s.cache.defaultConfig with
  | some _ => (none, s)
  | none =>
    match s.cache.loader s.world with
    | (.error err, w1) =>
      (some err, { s with world := w1, trace := s.trace ++ [.ClientConfig (.error err)] })
    | (.ok config, w1) =>
      let c1 := { s.cache with defaultConfig := some config }
      let t1 := s.trace ++ [.ClientConfig (.ok config)]
      if s.cache.matchVersion then
        match env.MatchesServerVersion s.cache.defaultClient config w1 with
        | (some err, w2) =>
          (some err, ⟨c1, w2, t1 ++ [.MatchesServerVersion s.cache.defaultClient config (some err)]⟩)
        | (none, w2) =>
          (none, ⟨c1, w2, t1 ++ [.MatchesServerVersion s.cache.defaultClient config none]⟩)
      else (none, ⟨c1, w1, t1⟩)

/-- Lines 66-73: the preferred group-version, parsed only from a non-empty string.
Returns the parser invocations made as well. -/
def parsePreferred (env : Env W) (version : String) :
    Except Error (Option GroupVersion) × List Event :=
  if version.length > 0 then
    match env.ParseGroupVersion version with
    | .error err => (.error err, [.ParseGroupVersion version (.error err)])
    | .ok gv => (.ok (some gv), [.ParseGroupVersion version (.ok gv)])
  else (.ok none, [])

/-- Lines 74-81: the loop over `registered.RegisteredVersions`, stopping at the
first string the parser rejects.  `acc` is `registeredGVs` so far. -/
def parseRegistered (env : Env W) :
    List String → List GroupVersion → Except Error (List GroupVersion) × List Event
  | [], acc => (.ok acc, [])
  | gvString :: rest, acc =>
    match env.ParseGroupVersion gvString with
    | .error err => (.error err, [.ParseGroupVersion gvString (.error err)])
    | .ok gv =>
      let r := parseRegistered env rest (acc ++ [gv])
      (r.1, .ParseGroupVersion gvString (.ok gv) :: r.2)

/-- The method `ClientCache.ClientConfigForVersion` (lines 46-97). -/
def ClientConfigForVersion (env : Env W) (version : String) (s : State W) :
    Result Config × State W :=
  match loadDefault env s with
  | (some err, s1) => (.error err, s1)
  | (none, s1) =>
    match s1.cache.configs version with
    | some config => (.ok config, s1)
    | none =>
      match s1.cache.defaultConfig with
      | none => (.panic, s1)
      | some config =>
        match parsePreferred env version with
        | (.error err, t1) => (.error err, { s1 with trace := s1.trace ++ t1 })
        | (.ok preferredGV, t1) =>
          match parseRegistered env env.RegisteredVersions [] with
          | (.error err, t2) => (.error err, { s1 with trace := s1.trace ++ t1 ++ t2 })
          | (.ok registeredGVs, t2) =>
            match env.NegotiateVersion s1.cache.defaultClient config preferredGV
                registeredGVs s1.world with
            | (.error err, w) =>
              (.error err, { s1 with world := w, trace := s1.trace ++ t1 ++ t2 ++
                [.NegotiateVersion s1.cache.defaultClient config preferredGV registeredGVs
                  (.error err)] })
            | (.ok negotiatedVersion, w) =>
              let t3 := s1.trace ++ t1 ++ t2 ++
                [.NegotiateVersion s1.cache.defaultClient config preferredGV registeredGVs
                  (.ok negotiatedVersion)]
              let config := env.SetKubernetesDefaults
                { config with GroupVersion := some negotiatedVersion }
              let configs1 := assign s1.cache.configs version config
              match config.GroupVersion with
              | none => (.panic, ⟨{ s1.cache with configs := configs1 }, w, t3⟩)
              | some gv =>
                (.ok config,
                  ⟨{ s1.cache with configs := assign configs1 (env.gvString gv) config }, w, t3⟩)

/-- The method `ClientCache.ClientForVersion` (lines 101-116). -/
def ClientForVersion (env : Env W) (version : String) (s : State W) :
    Result Client × State W :=
  match s.cache.clients version with
  | some client => (.ok client, s)
  | none =>
    match ClientConfigForVersion env version s with
    | (.error err, s1) => (.error err, s1)
    | (.panic, s1) => (.panic, s1)
    | (.ok config, s1) =>
      match env.New config s1.world with
      | (.error err, w) =>
        (.error err, { s1 with world := w, trace := s1.trace ++ [.New config (.error err)] })
      | (.ok client, w) =>
        let t := s1.trace ++ [.New config (.ok client)]
        match config.GroupVersion with
        | none => (.panic, ⟨s1.cache, w, t⟩)
        | some gv =>
          (.ok client, ⟨{ s1.cache with clients := assign s1.cache.clients (env.gvString gv) client }, w, t⟩)

/-- A program step of a client of the cache: one call of either method. -/
inductive Call where
  | ClientConfigForVersion (version : String)
  | ClientForVersion (version : String)
deriving DecidableEq

/-- One call: whether it panicked, and the state it leaves. -/
def invoke (env : Env W) (c : Call) (s : State W) : Bool × State W :=
  match c with
  | .ClientConfigForVersion version =>
    match ClientConfigForVersion env version s with
    | (.panic, s1) => (true, s1)
    | (_, s1) => (false, s1)
  | .ClientForVersion version =>
    match ClientForVersion env version s with
    | (.panic, s1) => (true, s1)
    | (_, s1) => (false, s1)

/-- A finite sequence of calls on one cache, in order; a panic ends the run. -/
def runCalls (env : Env W) : List Call → State W → State W
  | [], s => s
  | c :: rest, s =>
    match invoke env c s with
    | (true, s1) => s1
    | (false, s1) => runCalls env rest s1

/-- The states a cache can be in: any cache with empty tables and no default
configuration yet (as `NewClientCache` builds it, whatever the flag and the
bootstrap client were then set to), followed by calls that returned. -/
inductive Reachable (env : Env W) : State W → Prop where
  | init (c : ClientCache W) (w : W) (t : List Event)
      (hclients : c.clients = fun _ => none) (hconfigs : c.configs = fun _ => none)
      (hdefault : c.defaultConfig = none) : Reachable env ⟨c, w, t⟩
  | config (s : State W) (version : String) : Reachable env s →
      (ClientConfigForVersion env version s).1 ≠ .panic →
      Reachable env (ClientConfigForVersion env version s).2
  | client (s : State W) (version : String) : Reachable env s →
      (ClientForVersion env version s).1 ≠ .panic →
      Reachable env (ClientForVersion env version s).2

/-- Is the event an invocation of the loader? -/
def Event.isLoad : Event → Bool
  | .ClientConfig _ => true
  | _ => false

/-- Is the event a successful invocation of the loader? -/
def Event.isLoadOk : Event → Bool
  | .ClientConfig (.ok _) => true
  | _ => false

/-- Is the event an invocation of `MatchesServerVersion`? -/
def Event.isMatch : Event → Bool
  | .MatchesServerVersion _ _ _ => true
  | _ => false

/-- Is the event a `MatchesServerVersion` check that passed (returned a nil error)? -/
def Event.isMatchOk : Event → Bool
  | .MatchesServerVersion _ _ none => true
  | _ => false

/-- Is the event an invocation of `ParseGroupVersion`? -/
def Event.isParse : Event → Bool
  | .ParseGroupVersion _ _ => true
  | _ => false

/-- Is the event an invocation of `NegotiateVersion`? -/
def Event.isNegotiate : Event → Bool
  | .NegotiateVersion _ _ _ _ _ => true
  | _ => false

/-- Is the event an invocation of `client.New`? -/
def Event.isNew : Event → Bool
  | .New _ _ => true
  | _ => false

/-- The group-versions the negotiator can answer with. -/
def Negotiable (env : Env W) (G : GroupVersion) : Prop :=
  ∃ cl c p r w, (env.NegotiateVersion cl c p r w).1 = .ok G

/-- Contract of `SetKubernetesDefaults`: a `GroupVersion` that is already set is
left untouched. -/
def KeepsVersion (env : Env W) : Prop :=
  ∀ (c : Config) (gv : GroupVersion),
    c.GroupVersion = some gv → (env.SetKubernetesDefaults c).GroupVersion = some gv

/-- Contract of `NegotiateVersion` and `String`: the negotiator never answers with
two different group-versions that have the same string form. -/
def StringIdentifies (env : Env W) : Prop :=
  ∀ G G', Negotiable env G → Negotiable env G' → env.gvString G = env.gvString G' → G = G'

/-- The dual-keying invariant of the config table (I2 and I3 of the data model):
every stored configuration is the default configuration finalized for a negotiated
group-version, and it is stored under the string form of that group-version too. -/
def DualKeyed (env : Env W) (c : ClientCache W) : Prop :=
  ∀ k cfg, c.configs k = some cfg →
    ∃ d G, c.defaultConfig = some d ∧ Negotiable env G ∧
      cfg = env.SetKubernetesDefaults { d with GroupVersion := some G } ∧
      c.configs (env.gvString G) = some cfg

/-- How many loads can still succeed: one while the default configuration is absent. -/
def loadBudget (s : State W) : Nat :=
  if s.cache.defaultConfig.isSome then 0 else 1

/-- How many version-match checks can still happen. -/
def matchBudget (s : State W) : Nat :=
  if s.cache.matchVersion then loadBudget s else 0

/-- The error a collaborator invocation returned, if it returned one. -/
def Event.failure : Event → Option Error
  | .ClientConfig (.error err) => some err
  | .MatchesServerVersion _ _ (some err) => some err
  | .ParseGroupVersion _ (.error err) => some err
  | .NegotiateVersion _ _ _ _ (.error err) => some err
  | .New _ (.error err) => some err
  | _ => none

/-- The error a call returned to its caller, if it returned one. -/
def Result.failure {α : Type} : Result α → Option Error
  | .error err => some err
  | _ => none

/-- The error of an `Except`, if it is one. -/
def failureOf {α : Type} : Except Error α → Option Error
  | .error err => some err
  | .ok _ => none

/-- The events `t` of one call against what the call returned: when the call
returned the error `e`, the last event is a collaborator returning `e` and no
earlier collaborator failed; when the call did not return an error, no
collaborator failed. -/
def FailFast (t : List Event) (returned : Option Error) : Prop :=
  match returned with
  | some e => ∃ pre ev, t = pre ++ [ev] ∧ ev.failure = some e ∧ ∀ x ∈ pre, x.failure = none
  | none => ∀ x ∈ t, x.failure = none

/-- Upper bounds on how often each collaborator occurs in `t`. -/
def Steps (nLoad nMatch nParse nNegotiate nNew : Nat) (t : List Event) : Prop :=
  t.countP Event.isLoad ≤ nLoad ∧ t.countP Event.isMatch ≤ nMatch ∧
  t.countP Event.isParse ≤ nParse ∧ t.countP Event.isNegotiate ≤ nNegotiate ∧
  t.countP Event.isNew ≤ nNew

/-- One invocation per step of a call for `version`: at most one load, one version
check, one negotiation and one construction, and at most one parse for `version`
itself (none when it is empty) plus one per registry string. -/
def NoRetry (env : Env W) (version : String) (t : List Event) : Prop :=
  Steps 1 1 ((if version.length > 0 then 1 else 0) + env.RegisteredVersions.length) 1 1 t

/-- The key `k` of a config table is canonical: the configuration stored under it
has a group-version whose string form is `k`. -/
def SelfKeyed (env : Env W) (configs : String → Option Config) (k : String) : Prop :=
  ∃ cfg gv, configs k = some cfg ∧ cfg.GroupVersion = some gv ∧ env.gvString gv = k

/-- The invariant of the two tables: the config table is closed under
canonicalisation, every key of the client table is a canonical key of the config
table, and a config entry exists only once the default configuration is present. -/
def CacheInv (env : Env W) (c : ClientCache W) : Prop :=
  (∀ k cfg, c.configs k = some cfg →
    ∃ gv, cfg.GroupVersion = some gv ∧ SelfKeyed env c.configs (env.gvString gv)) ∧
  (∀ k h, c.clients k = some h → SelfKeyed env c.configs k) ∧
  (∀ k cfg, c.configs k = some cfg → c.defaultConfig ≠ none)

/-- The entry of `version` is pinned to the group-version `G`: the default
configuration is present and the configuration stored under `version` has
group-version `G`. -/
def Pinned (version : String) (G : GroupVersion) (c : ClientCache W) : Prop :=
  c.defaultConfig ≠ none ∧ ∃ cfg, c.configs version = some cfg ∧ cfg.GroupVersion = some G

/-- No successful negotiation in `t` answered a group-version other than `G` whose
string form is `version`. -/
def NoCollision (env : Env W) (version : String) (G : GroupVersion) (t : List Event) : Prop :=
  ∀ cl c p r G', Event.NegotiateVersion cl c p r (.ok G') ∈ t →
    env.gvString G' = version → G' = G

/-! ## A concrete set of collaborators, for evaluating the code -/

/-- A small outside world: the next fresh client handle, and which of the
fallible collaborators currently fail. -/
structure SampleWorld where
  nextHandle : Nat
  loadFails : Bool
  matchFails : Bool
  newFails : Bool
deriving DecidableEq

/-- A loader that yields a fixed base configuration unless the world makes it fail. -/
def sampleLoader (w : SampleWorld) : Except Error Config × SampleWorld :=
  if w.loadFails then (.error "no configuration", w)
  else (.ok ⟨"https://localhost", "", none⟩, w)

/-- The group-versions the sample server supports. -/
def sampleServerVersions : List GroupVersion := [⟨"", "v1"⟩, ⟨"", "v2"⟩]

/-- The first registered version the sample server supports. -/
def sampleFallback (registeredGVs : List GroupVersion) (w : SampleWorld) :
    Except Error GroupVersion × SampleWorld :=
  match registeredGVs.find? (fun gv => decide (gv ∈ sampleServerVersions)) with
  | some gv => (.ok gv, w)
  | none => (.error "failed to negotiate an api version", w)

/-- Collaborators over `SampleWorld`: the parser rejects `"???"` and reads any other
string as a version of the legacy group; the registry holds `v1` and `v2`; the
negotiator refuses a preferred version that is not registered, answers with the
preferred version when the server supports it, and with the first registered
version the server supports otherwise; the constructor hands out fresh handles. -/
def sampleEnv : Env SampleWorld :=
  { MatchesServerVersion := fun _ _ w =>
      (if w.matchFails then some "server version mismatch" else none, w)
    ParseGroupVersion := fun s =>
      if s = "???" then .error "unexpected GroupVersion string" else .ok ⟨"", s⟩
    RegisteredVersions := ["v1", "v2"]
    NegotiateVersion := fun _ _ preferredGV registeredGVs w =>
      match preferredGV with
      | none => sampleFallback registeredGVs w
      | some p =>
        if p ∈ registeredGVs then
          if p ∈ sampleServerVersions then (.ok p, w) else sampleFallback registeredGVs w
        else (.error "API version is not supported by client", w)
    SetKubernetesDefaults := fun c =>
      { c with UserAgent := if c.UserAgent = "" then "kubectl" else c.UserAgent }
    New := fun _ w =>
      if w.newFails then (.error "connection refused", w)
      else (.ok w.nextHandle, { w with nextHandle := w.nextHandle + 1 })
    gvString := fun gv => if gv.Group = "" then gv.Version else gv.Group ++ "/" ++ gv.Version }

/-- A freshly built cache over `SampleWorld`, with the match-version flag as given. -/
def sampleState (matchVersion : Bool) (w : SampleWorld) : State SampleWorld :=
  ⟨{ NewClientCache sampleLoader with matchVersion := matchVersion }, w, []⟩

/-- Deterministic collaborators (there is no world to depend on): every string
parses as a version of the legacy group, and the negotiator settles one version
below a preferred `v3` (on `v2`) and on `v1` for every other request. -/
def steppingEnv : Env Unit :=
  { MatchesServerVersion := fun _ _ w => (none, w)
    ParseGroupVersion := fun s => .ok ⟨"", s⟩
    RegisteredVersions := ["v1", "v2", "v3"]
    NegotiateVersion := fun _ _ preferredGV _ w =>
      match preferredGV with
      | some p => if p.Version = "v3" then (.ok ⟨"", "v2"⟩, w) else (.ok ⟨"", "v1"⟩, w)
      | none => (.ok ⟨"", "v1"⟩, w)
    SetKubernetesDefaults := fun c => c
    New := fun _ w => (.ok 0, w)
    gvString := fun gv => if gv.Group = "" then gv.Version else gv.Group ++ "/" ++ gv.Version }

/-- A freshly built cache over `steppingEnv`, with a loader that always succeeds. -/
def steppingState : State Unit :=
  ⟨NewClientCache (fun w => (.ok ⟨"https://localhost", "", none⟩, w)), (), []⟩

/-- Deterministic collaborators whose negotiator answers with two different
group-versions that print the same: the group `apps` at `v1` for a preferred `a`
(and for no preference), the legacy group at version `apps/v1` for anything else.
Default-filling changes nothing. -/
def collidingEnv : Env Unit :=
  { MatchesServerVersion := fun _ _ w => (none, w)
    ParseGroupVersion := fun s => .ok ⟨"", s⟩
    RegisteredVersions := []
    NegotiateVersion := fun _ _ preferredGV _ w =>
      match preferredGV with
      | some p =>
        if p.Version = "a" then (.ok ⟨"apps", "v1"⟩, w) else (.ok ⟨"", "apps/v1"⟩, w)
      | none => (.ok ⟨"apps", "v1"⟩, w)
    SetKubernetesDefaults := fun c => c
    New := fun _ w => (.ok 0, w)
    gvString := fun gv => if gv.Group = "" then gv.Version else gv.Group ++ "/" ++ gv.Version }

/-- A freshly built cache over `collidingEnv`, with a loader that always succeeds. -/
def collidingState : State Unit :=
  ⟨NewClientCache (fun w => (.ok ⟨"https://localhost", "", none⟩, w)), (), []⟩

/-! ## The lazy load (lines 47-58) -/

theorem assign_same {α : Type} (m : String → Option α) (k : String) (v : α) :
    assign m k v k = some v := by
  simp [assign]

theorem assign_other {α : Type} (m : String → Option α) (k k' : String) (v : α)
    (h : k' ≠ k) : assign m k v k' = m k' := by
  simp [assign, h]

/-- With the default configuration present, lines 47-58 do nothing. -/
theorem loadDefault_present (env : Env W) (s : State W) (d : Config)
    (h : s.cache.defaultConfig = some d) : loadDefault env s = (none, s) := by
  simp [loadDefault, h]

/-- Lines 47-58 touch only the default configuration, the world and the trace. -/
theorem loadDefault_frame (env : Env W) (s : State W) :
    (loadDefault env s).2.cache.clients = s.cache.clients ∧
    (loadDefault env s).2.cache.configs = s.cache.configs ∧
    (loadDefault env s).2.cache.loader = s.cache.loader ∧
    (loadDefault env s).2.cache.defaultClient = s.cache.defaultClient ∧
    (loadDefault env s).2.cache.matchVersion = s.cache.matchVersion := by
  unfold loadDefault
  split
  · simp
  · split
    · simp
    · split
      · split <;> simp
      · simp

/-- When lines 47-58 fall through, the default configuration is present. -/
theorem loadDefault_none (env : Env W) (s s1 : State W)
    (h : loadDefault env s = (none, s1)) : ∃ d, s1.cache.defaultConfig = some d := by
  unfold loadDefault at h
  split at h
  · rename_i d hd
    simp only [Prod.mk.injEq, true_and] at h
    exact ⟨d, h ▸ hd⟩
  · split at h
    · simp at h
    · split at h
      · split at h
        · simp at h
        · simp only [Prod.mk.injEq, true_and] at h
          subst h
          exact ⟨_, rfl⟩
      · simp only [Prod.mk.injEq, true_and] at h
        subst h
        exact ⟨_, rfl⟩

/-- A cache hit: default configuration present and `version` a key of the config table. -/
theorem ClientConfigForVersion_hit (env : Env W) (version : String) (s : State W)
    (d cfg : Config) (hd : s.cache.defaultConfig = some d)
    (hc : s.cache.configs version = some cfg) :
    ClientConfigForVersion env version s = (.ok cfg, s) := by
  simp [ClientConfigForVersion, loadDefault_present env s d hd, hc]

/-- The two ways `ClientConfigForVersion` succeeds: a hit after lines 47-58, or a
miss followed by a successful parse, registry parse and negotiation, and the
two stores of lines 89 and 94. -/
theorem ClientConfigForVersion_ok (env : Env W) (version : String) (s s' : State W)
    (cfg : Config) (h : ClientConfigForVersion env version s = (.ok cfg, s')) :
    ∃ s1, loadDefault env s = (none, s1) ∧
      ((s1.cache.configs version = some cfg ∧ s' = s1) ∨
       (s1.cache.configs version = none ∧
        ∃ d preferredGV t1 registeredGVs t2 negotiatedVersion w gv,
          s1.cache.defaultConfig = some d ∧
          parsePreferred env version = (.ok preferredGV, t1) ∧
          parseRegistered env env.RegisteredVersions [] = (.ok registeredGVs, t2) ∧
          env.NegotiateVersion s1.cache.defaultClient d preferredGV registeredGVs s1.world
            = (.ok negotiatedVersion, w) ∧
          cfg = env.SetKubernetesDefaults { d with GroupVersion := some negotiatedVersion } ∧
          cfg.GroupVersion = some gv ∧
          s' = ⟨{ s1.cache with
                  configs := assign (assign s1.cache.configs version cfg) (env.gvString gv) cfg },
                w, s1.trace ++ t1 ++ t2 ++
                  [.NegotiateVersion s1.cache.defaultClient d preferredGV registeredGVs
                    (.ok negotiatedVersion)]⟩)) := by
  unfold ClientConfigForVersion at h
  split at h
  · simp at h
  · rename_i s1 hl
    refine ⟨s1, hl, ?_⟩
    split at h
    · rename_i config hc
      simp only [Prod.mk.injEq, Result.ok.injEq] at h
      left
      exact ⟨h.1 ▸ hc, h.2.symm⟩
    · rename_i hc
      right
      refine ⟨hc, ?_⟩
      split at h
      · simp at h
      · rename_i d hd
        split at h
        · simp at h
        · rename_i preferredGV t1 hp
          split at h
          · simp at h
          · rename_i registeredGVs t2 hr
            split at h
            · simp at h
            · rename_i negotiatedVersion w hn
              simp only at h
              split at h
              · simp at h
              · rename_i gv hgv
                simp only [Prod.mk.injEq, Result.ok.injEq] at h
                obtain ⟨h1, h2⟩ := h
                subst h1
                exact ⟨d, preferredGV, t1, registeredGVs, t2, negotiatedVersion, w, gv,
                  hd, hp, hr, hn, rfl, hgv, h2.symm⟩

/-- After a successful `ClientConfigForVersion` the default configuration is
present and the returned configuration is stored under `version`. -/
theorem ClientConfigForVersion_ok_stored (env : Env W) (version : String) (s s' : State W)
    (cfg : Config) (h : ClientConfigForVersion env version s = (.ok cfg, s')) :
    (∃ d, s'.cache.defaultConfig = some d) ∧ s'.cache.configs version = some cfg := by
  obtain ⟨s1, hl, hcase⟩ := ClientConfigForVersion_ok env version s s' cfg h
  rcases hcase with ⟨hc, rfl⟩ | ⟨_, d, _, _, _, _, _, w, gv, hd, _, _, _, _, _, rfl⟩
  · exact ⟨loadDefault_none env s s' hl, hc⟩
  · refine ⟨⟨d, hd⟩, ?_⟩
    show assign (assign s1.cache.configs version cfg) (env.gvString gv) cfg version = some cfg
    by_cases hk : version = env.gvString gv
    · rw [hk]; exact assign_same _ _ _
    · rw [assign_other _ _ _ _ hk]; exact assign_same _ _ _

/-- An error return of `ClientConfigForVersion` leaves the cache as lines 47-58
left it. -/
theorem ClientConfigForVersion_error (env : Env W) (version : String) (s s' : State W)
    (e : Error) (h : ClientConfigForVersion env version s = (.error e, s')) :
    s'.cache = (loadDefault env s).2.cache := by
  unfold ClientConfigForVersion at h
  split at h
  · rename_i err s1 hl
    simp only [Prod.mk.injEq] at h
    rw [hl, ← h.2]
  · rename_i s1 hl
    rw [hl]
    split at h
    · simp at h
    · split at h
      · simp at h
      · split at h
        · simp only [Prod.mk.injEq] at h
          rw [← h.2]
        · split at h
          · simp only [Prod.mk.injEq] at h
            rw [← h.2]
          · split at h
            · simp only [Prod.mk.injEq] at h
              rw [← h.2]
            · simp only at h
              split at h <;> simp at h

/-- How the config table and the default configuration come out of a
`ClientForVersion` call that did not panic: untouched (fast path), or as the
inner `ClientConfigForVersion` call left them. -/
theorem ClientForVersion_configs (env : Env W) (version : String) (s : State W)
    (h : (ClientForVersion env version s).1 ≠ .panic) :
    (ClientForVersion env version s).2 = s ∨
    ((ClientConfigForVersion env version s).1 ≠ .panic ∧
      (ClientForVersion env version s).2.cache.configs =
        (ClientConfigForVersion env version s).2.cache.configs ∧
      (ClientForVersion env version s).2.cache.defaultConfig =
        (ClientConfigForVersion env version s).2.cache.defaultConfig) := by
  unfold ClientForVersion at h ⊢
  split
  · left; rfl
  · right
    rename_i hmiss
    simp only [hmiss] at h
    split
    · rename_i err s1 hc
      simp [hc]
    · rename_i s1 hc
      simp [hc] at h
    · rename_i config s1 hc
      simp only [hc, ne_eq, not_false_eq_true, true_and, reduceCtorEq]
      split
      · exact ⟨rfl, rfl⟩
      · split <;> exact ⟨rfl, rfl⟩

theorem DualKeyed_congr (env : Env W) (c c' : ClientCache W)
    (h1 : c'.configs = c.configs) (h2 : c'.defaultConfig = c.defaultConfig)
    (h : DualKeyed env c) : DualKeyed env c' := by
  intro k cfg hk
  rw [h1] at hk
  obtain ⟨d, G, hd, hG, hcfg, hcan⟩ := h k cfg hk
  exact ⟨d, G, h2 ▸ hd, hG, hcfg, h1 ▸ hcan⟩

/-- Lines 47-58 keep the dual-keying invariant. -/
theorem loadDefault_dualKeyed (env : Env W) (s : State W) (h : DualKeyed env s.cache) :
    DualKeyed env (loadDefault env s).2.cache := by
  intro k cfg hk
  have hf := loadDefault_frame env s
  rw [hf.2.1] at hk
  obtain ⟨d, G, hd, hG, hcfg, hcan⟩ := h k cfg hk
  rw [loadDefault_present env s d hd]
  exact ⟨d, G, hd, hG, hcfg, hcan⟩

/-- A `ClientConfigForVersion` call that returns keeps the dual-keying invariant,
when default-filling keeps the negotiated version and the string form identifies
negotiated versions. -/
theorem ClientConfigForVersion_dualKeyed (env : Env W) (hk : KeepsVersion env)
    (hs : StringIdentifies env) (version : String) (s : State W)
    (h : DualKeyed env s.cache)
    (hr : (ClientConfigForVersion env version s).1 ≠ .panic) :
    DualKeyed env (ClientConfigForVersion env version s).2.cache := by
  have h1 := loadDefault_dualKeyed env s h
  cases hres : ClientConfigForVersion env version s with
  | mk r s' =>
    cases r with
    | panic => simp [hres] at hr
    | error e =>
      rw [ClientConfigForVersion_error env version s s' e hres]
      exact h1
    | ok cfg =>
      obtain ⟨s1, hl, hcase⟩ := ClientConfigForVersion_ok env version s s' cfg hres
      rw [hl] at h1
      rcases hcase with ⟨_, rfl⟩ | ⟨hmiss, d, p, t1, regs, t2, G, w, gv, hd, _, _, hn, hcfg, hgv, rfl⟩
      · exact h1
      · have hG : Negotiable env G := ⟨_, _, _, _, _, by rw [hn]⟩
        have hgvG : gv = G := by
          have := hk { d with GroupVersion := some G } G rfl
          rw [← hcfg, hgv] at this
          exact Option.some.inj this
        subst hgvG
        intro k cfg' hk'
        simp only at hk' ⊢
        by_cases hkc : k = env.gvString gv
        · rw [hkc, assign_same] at hk'
          obtain rfl := Option.some.inj hk'
          exact ⟨d, gv, hd, hG, hcfg, assign_same _ _ _⟩
        · rw [assign_other _ _ _ _ hkc] at hk'
          by_cases hkv : k = version
          · rw [hkv, assign_same] at hk'
            obtain rfl := Option.some.inj hk'
            exact ⟨d, gv, hd, hG, hcfg, assign_same _ _ _⟩
          · rw [assign_other _ _ _ _ hkv] at hk'
            obtain ⟨d', G', hd', hG', hcfg', hcan'⟩ := h1 k cfg' hk'
            have hdd : d' = d := Option.some.inj (hd'.symm.trans hd)
            subst hdd
            refine ⟨d', G', hd, hG', hcfg', ?_⟩
            by_cases hc1 : env.gvString G' = env.gvString gv
            · have : G' = gv := hs G' gv hG' hG hc1
              subst this
              rw [hcfg', ← hcfg]
              exact assign_same _ _ _
            · rw [assign_other _ _ _ _ hc1]
              by_cases hc2 : env.gvString G' = version
              · rw [hc2, hmiss] at hcan'
                exact absurd hcan' (by simp)
              · rw [assign_other _ _ _ _ hc2]
                exact hcan'

/-- Every reachable state satisfies the dual-keying invariant, under the two
collaborator contracts. -/
theorem Reachable_dualKeyed (env : Env W) (hk : KeepsVersion env)
    (hs : StringIdentifies env) (s : State W) (h : Reachable env s) :
    DualKeyed env s.cache := by
  induction h with
  | init c w t hclients hconfigs hdefault =>
    intro k cfg hkc
    simp [hconfigs] at hkc
  | config s version _ hr ih =>
    exact ClientConfigForVersion_dualKeyed env hk hs version s ih hr
  | client s version _ hr ih =>
    rcases ClientForVersion_configs env version s hr with h1 | ⟨hnp, h2, h3⟩
    · rw [h1]; exact ih
    · exact DualKeyed_congr env _ _ h2 h3
        (ClientConfigForVersion_dualKeyed env hk hs version s ih hnp)

/-- The two ways `ClientForVersion` succeeds: the fast path of line 102, or config
resolution, construction and the store of line 114. -/
theorem ClientForVersion_ok (env : Env W) (version : String) (s s' : State W) (h : Client)
    (hok : ClientForVersion env version s = (.ok h, s')) :
    (s.cache.clients version = some h ∧ s' = s) ∨
    (s.cache.clients version = none ∧ ∃ cfg s1 w gv,
      ClientConfigForVersion env version s = (.ok cfg, s1) ∧
      env.New cfg s1.world = (.ok h, w) ∧ cfg.GroupVersion = some gv ∧
      s' = ⟨{ s1.cache with clients := assign s1.cache.clients (env.gvString gv) h }, w,
            s1.trace ++ [.New cfg (.ok h)]⟩) := by
  unfold ClientForVersion at hok
  split at hok
  · rename_i client hc
    simp only [Prod.mk.injEq, Result.ok.injEq] at hok
    left
    exact ⟨hok.1 ▸ hc, hok.2.symm⟩
  · rename_i hmiss
    right
    refine ⟨hmiss, ?_⟩
    split at hok
    · simp at hok
    · simp at hok
    · rename_i cfg s1 hc
      split at hok
      · simp at hok
      · rename_i client w hn
        simp only at hok
        split at hok
        · simp at hok
        · rename_i gv hgv
          simp only [Prod.mk.injEq, Result.ok.injEq] at hok
          obtain ⟨h1, h2⟩ := hok
          subst h1
          exact ⟨cfg, s1, w, gv, hc, hn, hgv, h2.symm⟩

/-- The fast path of `ClientForVersion`. -/
theorem ClientForVersion_hit (env : Env W) (version : String) (s : State W) (h : Client)
    (hc : s.cache.clients version = some h) :
    ClientForVersion env version s = (.ok h, s) := by
  simp [ClientForVersion, hc]

theorem sampleEnv_keepsVersion : KeepsVersion sampleEnv := by
  intro c gv h
  simpa [sampleEnv] using h

theorem sampleFallback_supported (regs : List GroupVersion) (w : SampleWorld)
    (G : GroupVersion) (h : (sampleFallback regs w).1 = .ok G) : G ∈ sampleServerVersions := by
  unfold sampleFallback at h
  split at h
  · rename_i gv hf
    have := List.find?_some hf
    simp only [Except.ok.injEq] at h
    subst h
    simpa using this
  · simp at h

theorem sampleEnv_negotiable (G : GroupVersion) (h : Negotiable sampleEnv G) :
    G ∈ sampleServerVersions := by
  obtain ⟨cl, c, p, r, w, h⟩ := h
  simp only [sampleEnv] at h
  split at h
  · exact sampleFallback_supported r w G h
  · split at h
    · split at h
      · rename_i hp
        simp only [Except.ok.injEq] at h
        exact h ▸ hp
      · exact sampleFallback_supported r w G h
    · simp at h

theorem sampleEnv_stringIdentifies : StringIdentifies sampleEnv := by
  intro G G' hG hG' hs
  have h1 := sampleEnv_negotiable G hG
  have h2 := sampleEnv_negotiable G' hG'
  simp only [sampleServerVersions, List.mem_cons, List.mem_singleton, List.mem_nil_iff,
    or_false] at h1 h2
  rcases h1 with rfl | rfl <;> rcases h2 with rfl | rfl <;> first | rfl | (simp [sampleEnv] at hs)

/-! ## Traces -/

theorem parsePreferred_events (env : Env W) (version : String) :
    ∀ e ∈ (parsePreferred env version).2, e.isParse = true := by
  unfold parsePreferred
  split
  · split <;> simp [Event.isParse]
  · simp

theorem parseRegistered_events (env : Env W) (l : List String) :
    ∀ acc, ∀ e ∈ (parseRegistered env l acc).2, e.isParse = true := by
  induction l with
  | nil => intro acc; simp [parseRegistered]
  | cons g rest ih =>
    intro acc
    unfold parseRegistered
    split
    · simp [Event.isParse]
    · intro e he
      simp only [List.mem_cons] at he
      rcases he with rfl | he
      · rfl
      · exact ih _ e he

/-- After lines 47-58, `ClientConfigForVersion` only parses and negotiates, and
writes nothing but the config table. -/
theorem ClientConfigForVersion_frame (env : Env W) (version : String) (s : State W) :
    (∃ t, (ClientConfigForVersion env version s).2.trace = (loadDefault env s).2.trace ++ t ∧
      ∀ e ∈ t, e.isParse = true ∨ e.isNegotiate = true) ∧
    (ClientConfigForVersion env version s).2.cache.defaultConfig =
      (loadDefault env s).2.cache.defaultConfig ∧
    (ClientConfigForVersion env version s).2.cache.matchVersion = s.cache.matchVersion ∧
    (ClientConfigForVersion env version s).2.cache.loader = s.cache.loader ∧
    (ClientConfigForVersion env version s).2.cache.clients = s.cache.clients ∧
    (ClientConfigForVersion env version s).2.cache.defaultClient = s.cache.defaultClient := by
  obtain ⟨f1, _, f3, f4, f5⟩ := loadDefault_frame env s
  have hp := parsePreferred_events env version
  have hr := parseRegistered_events env env.RegisteredVersions []
  unfold ClientConfigForVersion
  split
  · rename_i err s1 hl
    rw [hl] at f1 f3 f4 f5 ⊢
    exact ⟨⟨[], by simp, by simp⟩, rfl, f5, f3, f1, f4⟩
  · rename_i s1 hl
    rw [hl] at f1 f3 f4 f5 ⊢
    split
    · exact ⟨⟨[], by simp, by simp⟩, rfl, f5, f3, f1, f4⟩
    · split
      · exact ⟨⟨[], by simp, by simp⟩, rfl, f5, f3, f1, f4⟩
      · rename_i d hd
        split
        · rename_i err t1 hp1
          rw [hp1] at hp
          exact ⟨⟨t1, rfl, fun e he => Or.inl (hp e he)⟩, rfl, f5, f3, f1, f4⟩
        · rename_i p t1 hp1
          rw [hp1] at hp
          split
          · rename_i err t2 hr1
            rw [hr1] at hr
            refine ⟨⟨t1 ++ t2, by simp, ?_⟩, rfl, f5, f3, f1, f4⟩
            intro e he
            rcases List.mem_append.1 he with he | he
            · exact Or.inl (hp e he)
            · exact Or.inl (hr e he)
          · rename_i regs t2 hr1
            rw [hr1] at hr
            have hev : ∀ ev : Event, ev.isNegotiate = true → ∀ e ∈ t1 ++ t2 ++ [ev],
                e.isParse = true ∨ e.isNegotiate = true := by
              intro ev hev e he
              rcases List.mem_append.1 he with he | he
              · rcases List.mem_append.1 he with he | he
                · exact Or.inl (hp e he)
                · exact Or.inl (hr e he)
              · rw [List.mem_singleton.1 he]
                exact Or.inr hev
            split
            · rename_i err w hn
              exact ⟨⟨t1 ++ t2 ++ [.NegotiateVersion s1.cache.defaultClient d p regs (.error err)],
                by simp only [List.append_assoc], hev (.NegotiateVersion _ _ _ _ _) rfl⟩,
                rfl, f5, f3, f1, f4⟩
            · rename_i G w hn
              simp only
              split
              · exact ⟨⟨t1 ++ t2 ++ [.NegotiateVersion s1.cache.defaultClient d p regs (.ok G)],
                  by simp only [List.append_assoc], hev (.NegotiateVersion _ _ _ _ _) rfl⟩,
                rfl, f5, f3, f1, f4⟩
              · exact ⟨⟨t1 ++ t2 ++ [.NegotiateVersion s1.cache.defaultClient d p regs (.ok G)],
                  by simp only [List.append_assoc], hev (.NegotiateVersion _ _ _ _ _) rfl⟩,
                rfl, f5, f3, f1, f4⟩

/-- Lines 47-58 in terms of the trace: at most one load, followed by at most one
version-match check; both budgets only go down. -/
theorem loadDefault_budget (env : Env W) (s : State W) :
    (loadDefault env s).2.trace.countP Event.isMatch + matchBudget (loadDefault env s).2 ≤
      s.trace.countP Event.isMatch + matchBudget s ∧
    (loadDefault env s).2.trace.countP Event.isLoadOk + loadBudget (loadDefault env s).2 ≤
      s.trace.countP Event.isLoadOk + loadBudget s ∧
    (loadDefault env s).2.trace.countP Event.isLoad ≤
      s.trace.countP Event.isLoad + loadBudget s ∧
    loadBudget (loadDefault env s).2 ≤ loadBudget s := by
  unfold loadDefault
  split
  · simp
  · rename_i hd
    split
    · simp [matchBudget, loadBudget, hd, List.countP_append, Event.isMatch, Event.isLoadOk,
        Event.isLoad]
    · split
      · rename_i hm
        split <;>
          simp [matchBudget, loadBudget, hd, hm, List.countP_append, Event.isMatch,
            Event.isLoadOk, Event.isLoad]
      · rename_i hm
        simp [matchBudget, loadBudget, hd, hm, List.countP_append, Event.isMatch,
          Event.isLoadOk, Event.isLoad]

/-- Parser, negotiator and constructor events are neither loads nor match checks. -/
theorem countP_quiet (t : List Event)
    (h : ∀ e ∈ t, e.isParse = true ∨ e.isNegotiate = true ∨ e.isNew = true) :
    t.countP Event.isMatch = 0 ∧ t.countP Event.isLoadOk = 0 ∧ t.countP Event.isLoad = 0 := by
  refine ⟨List.countP_eq_zero.2 ?_, List.countP_eq_zero.2 ?_, List.countP_eq_zero.2 ?_⟩ <;>
  · intro e he
    have := h e he
    cases e <;> simp_all [Event.isParse, Event.isNegotiate, Event.isNew, Event.isMatch,
      Event.isLoadOk, Event.isLoad]

/-- One `ClientConfigForVersion` call against the budgets. -/
theorem ClientConfigForVersion_budget (env : Env W) (version : String) (s : State W) :
    (ClientConfigForVersion env version s).2.trace.countP Event.isMatch +
        matchBudget (ClientConfigForVersion env version s).2 ≤
      s.trace.countP Event.isMatch + matchBudget s ∧
    (ClientConfigForVersion env version s).2.trace.countP Event.isLoadOk +
        loadBudget (ClientConfigForVersion env version s).2 ≤
      s.trace.countP Event.isLoadOk + loadBudget s ∧
    (ClientConfigForVersion env version s).2.trace.countP Event.isLoad ≤
      s.trace.countP Event.isLoad + loadBudget s ∧
    loadBudget (ClientConfigForVersion env version s).2 ≤ loadBudget s := by
  obtain ⟨⟨t, ht, hev⟩, hd, hm, _⟩ := ClientConfigForVersion_frame env version s
  obtain ⟨q1, q2, q3⟩ := countP_quiet t (fun e he => by
    rcases hev e he with h | h
    · exact Or.inl h
    · exact Or.inr (Or.inl h))
  obtain ⟨b1, b2, b3, b4⟩ := loadDefault_budget env s
  have hm' := (loadDefault_frame env s).2.2.2.2
  have hl : loadBudget (ClientConfigForVersion env version s).2 =
      loadBudget (loadDefault env s).2 := by
    simp only [loadBudget, hd]
  have hmb : matchBudget (ClientConfigForVersion env version s).2 =
      matchBudget (loadDefault env s).2 := by
    simp only [matchBudget, hl, hm, hm']
  rw [ht, hl, hmb, List.countP_append, List.countP_append, List.countP_append, q1, q2, q3]
  exact ⟨b1, b2, b3, b4⟩

/-- After config resolution, `ClientForVersion` only constructs, and writes nothing
but the client table. -/
theorem ClientForVersion_frame (env : Env W) (version : String) (s : State W) :
    (ClientForVersion env version s).2 = s ∨
    ((∃ t, (ClientForVersion env version s).2.trace =
        (ClientConfigForVersion env version s).2.trace ++ t ∧ ∀ e ∈ t, e.isNew = true) ∧
      (ClientForVersion env version s).2.cache.defaultConfig =
        (ClientConfigForVersion env version s).2.cache.defaultConfig ∧
      (ClientForVersion env version s).2.cache.matchVersion =
        (ClientConfigForVersion env version s).2.cache.matchVersion ∧
      (ClientForVersion env version s).2.cache.configs =
        (ClientConfigForVersion env version s).2.cache.configs) := by
  unfold ClientForVersion
  split
  · left; rfl
  · right
    split
    · rename_i err s1 hc
      rw [hc]
      exact ⟨⟨[], by simp, by simp⟩, rfl, rfl, rfl⟩
    · rename_i s1 hc
      rw [hc]
      exact ⟨⟨[], by simp, by simp⟩, rfl, rfl, rfl⟩
    · rename_i config s1 hc
      rw [hc]
      split
      · exact ⟨⟨_, rfl, by simp [Event.isNew]⟩, rfl, rfl, rfl⟩
      · split <;> exact ⟨⟨_, rfl, by simp [Event.isNew]⟩, rfl, rfl, rfl⟩

/-- One `ClientForVersion` call against the budgets. -/
theorem ClientForVersion_budget (env : Env W) (version : String) (s : State W) :
    (ClientForVersion env version s).2.trace.countP Event.isMatch +
        matchBudget (ClientForVersion env version s).2 ≤
      s.trace.countP Event.isMatch + matchBudget s ∧
    (ClientForVersion env version s).2.trace.countP Event.isLoadOk +
        loadBudget (ClientForVersion env version s).2 ≤
      s.trace.countP Event.isLoadOk + loadBudget s ∧
    (ClientForVersion env version s).2.trace.countP Event.isLoad ≤
      s.trace.countP Event.isLoad + loadBudget s ∧
    loadBudget (ClientForVersion env version s).2 ≤ loadBudget s := by
  rcases ClientForVersion_frame env version s with h | ⟨⟨t, ht, hev⟩, hd, hm, _⟩
  · rw [h]; simp
  · obtain ⟨q1, q2, q3⟩ := countP_quiet t (fun e he => Or.inr (Or.inr (hev e he)))
    have hl : loadBudget (ClientForVersion env version s).2 =
        loadBudget (ClientConfigForVersion env version s).2 := by
      simp only [loadBudget, hd]
    have hmb : matchBudget (ClientForVersion env version s).2 =
        matchBudget (ClientConfigForVersion env version s).2 := by
      simp only [matchBudget, hl, hm]
    rw [ht, hl, hmb, List.countP_append, List.countP_append, List.countP_append, q1, q2, q3]
    exact ClientConfigForVersion_budget env version s

/-- One call of either method against the budgets. -/
theorem invoke_budget (env : Env W) (c : Call) (s : State W) :
    (invoke env c s).2.trace.countP Event.isMatch + matchBudget (invoke env c s).2 ≤
      s.trace.countP Event.isMatch + matchBudget s ∧
    (invoke env c s).2.trace.countP Event.isLoadOk + loadBudget (invoke env c s).2 ≤
      s.trace.countP Event.isLoadOk + loadBudget s ∧
    (invoke env c s).2.trace.countP Event.isLoad ≤ s.trace.countP Event.isLoad + loadBudget s ∧
    loadBudget (invoke env c s).2 ≤ loadBudget s := by
  have h1 : (invoke env c s).2 = match c with
      | .ClientConfigForVersion version => (ClientConfigForVersion env version s).2
      | .ClientForVersion version => (ClientForVersion env version s).2 := by
    unfold invoke
    cases c <;> simp only <;> split <;> simp_all
  rw [h1]
  cases c with
  | ClientConfigForVersion version => exact ClientConfigForVersion_budget env version s
  | ClientForVersion version => exact ClientForVersion_budget env version s

/-- A whole run against the budgets. -/
theorem runCalls_budget (env : Env W) (calls : List Call) :
    ∀ s : State W,
    (runCalls env calls s).trace.countP Event.isMatch + matchBudget (runCalls env calls s) ≤
      s.trace.countP Event.isMatch + matchBudget s ∧
    (runCalls env calls s).trace.countP Event.isLoadOk + loadBudget (runCalls env calls s) ≤
      s.trace.countP Event.isLoadOk + loadBudget s ∧
    (runCalls env calls s).trace.countP Event.isLoad ≤
      s.trace.countP Event.isLoad + loadBudget s * calls.length := by
  induction calls with
  | nil => intro s; simp [runCalls]
  | cons c rest ih =>
    intro s
    obtain ⟨b1, b2, b3, b4⟩ := invoke_budget env c s
    have hlen : loadBudget s * (c :: rest).length = loadBudget s * rest.length + loadBudget s := by
      simp [Nat.mul_succ]
    unfold runCalls
    rcases hi : invoke env c s with ⟨b, s1⟩
    rw [hi] at b1 b2 b3 b4
    simp only at b1 b2 b3 b4
    cases b with
    | true =>
      simp only
      exact ⟨b1, b2, by rw [hlen]; omega⟩
    | false =>
      simp only
      obtain ⟨i1, i2, i3⟩ := ih s1
      have : loadBudget s1 * rest.length ≤ loadBudget s * rest.length :=
        Nat.mul_le_mul_right _ b4
      exact ⟨by omega, by omega, by rw [hlen]; omega⟩

/-- The two ways `ClientForVersion` returns an error: from config resolution, or
from the constructor after config resolution succeeded. -/
theorem ClientForVersion_error (env : Env W) (version : String) (s s' : State W) (e : Error)
    (h : ClientForVersion env version s = (.error e, s')) :
    ClientConfigForVersion env version s = (.error e, s') ∨
    ∃ cfg s1 w, ClientConfigForVersion env version s = (.ok cfg, s1) ∧
      env.New cfg s1.world = (.error e, w) ∧
      s' = { s1 with world := w, trace := s1.trace ++ [.New cfg (.error e)] } := by
  unfold ClientForVersion at h
  split at h
  · simp at h
  · split at h
    · rename_i err s1 hc
      simp only [Prod.mk.injEq, Result.error.injEq] at h
      left
      rw [hc, h.1, h.2]
    · simp at h
    · rename_i cfg s1 hc
      right
      split at h
      · rename_i err w hn
        simp only [Prod.mk.injEq, Result.error.injEq] at h
        exact ⟨cfg, s1, w, hc, h.1 ▸ hn, h.1 ▸ h.2.symm⟩
      · simp only at h
        split at h <;> simp at h

/-- With no default configuration, lines 47-58 start by invoking the loader. -/
theorem loadDefault_absent (env : Env W) (s : State W) (h : s.cache.defaultConfig = none) :
    ∃ t, (loadDefault env s).2.trace =
      s.trace ++ Event.ClientConfig (s.cache.loader s.world).1 :: t := by
  unfold loadDefault
  simp only [h]
  split
  · rename_i err w1 hl
    exact ⟨[], by simp [hl]⟩
  · rename_i config w1 hl
    split
    · split
      · rename_i err w2 hm
        exact ⟨[.MatchesServerVersion s.cache.defaultClient config (some err)], by simp [hl]⟩
      · rename_i w2 hm
        exact ⟨[.MatchesServerVersion s.cache.defaultClient config none], by simp [hl]⟩
    · exact ⟨[], by simp [hl]⟩

/-- What line 114 leaves undone, for any collaborators: when `ClientForVersion(V)`
builds a client for a configuration whose canonical string differs from `V`, the
client table still has no entry under `V`, and the same call made right after
resolves the configuration again (a hit) and invokes the constructor again. -/
theorem ClientForVersion_alias_miss (env : Env W) (version : String) (s s' : State W)
    (h : Client) (cfg : Config) (gv : GroupVersion)
    (hmiss : s.cache.clients version = none)
    (hok : ClientForVersion env version s = (.ok h, s'))
    (hcfg : (ClientConfigForVersion env version s).1 = .ok cfg)
    (hgv : cfg.GroupVersion = some gv) (hne : env.gvString gv ≠ version) :
    s'.cache.clients version = none ∧
    (ClientForVersion env version s').2.trace =
      s'.trace ++ [.New cfg (env.New cfg s'.world).1] := by
  rcases ClientForVersion_ok env version s s' h hok with
    ⟨hc, _⟩ | ⟨_, cfg', s1, w, gv', hc, _, hgv', rfl⟩
  · rw [hmiss] at hc
    exact absurd hc (by simp)
  · rw [hc] at hcfg
    obtain rfl : cfg' = cfg := Result.ok.inj hcfg
    obtain rfl : gv' = gv := Option.some.inj (hgv'.symm.trans hgv)
    have hfr := (ClientConfigForVersion_frame env version s).2.2.2.2.1
    rw [hc] at hfr
    have hcl : assign s1.cache.clients (env.gvString gv') h version = none := by
      rw [assign_other _ _ _ _ (Ne.symm hne), hfr, hmiss]
    obtain ⟨⟨d, hd⟩, hst⟩ := ClientConfigForVersion_ok_stored env version s s1 cfg' hc
    refine ⟨hcl, ?_⟩
    have hhit := ClientConfigForVersion_hit env version
      (⟨{ s1.cache with clients := assign s1.cache.clients (env.gvString gv') h }, w,
        s1.trace ++ [.New cfg' (.ok h)]⟩ : State W) d cfg' hd hst
    unfold ClientForVersion
    simp only [hcl, hhit]
    split
    · rename_i err w' hn
      simp [hn]
    · rename_i c' w' hn
      simp only [hgv']
      simp [hn]

/-- What lines 52-57 do when the version check fails, for any collaborators: the
error is returned with the loaded configuration already stored as the default
configuration. -/
theorem ClientConfigForVersion_match_error (env : Env W) (version : String) (s : State W)
    (config : Config) (w1 w2 : W) (e : Error)
    (hd : s.cache.defaultConfig = none) (hm : s.cache.matchVersion = true)
    (hl : s.cache.loader s.world = (.ok config, w1))
    (hc : env.MatchesServerVersion s.cache.defaultClient config w1 = (some e, w2)) :
    ClientConfigForVersion env version s =
      (.error e, ⟨{ s.cache with defaultConfig := some config }, w2,
        s.trace ++ [.ClientConfig (.ok config)] ++
          [.MatchesServerVersion s.cache.defaultClient config (some e)]⟩) := by
  simp [ClientConfigForVersion, loadDefault, hd, hm, hl, hc]

/-- Lines 47-58 only append loader and version-check events to the trace. -/
theorem loadDefault_trace (env : Env W) (s : State W) :
    ∃ t, (loadDefault env s).2.trace = s.trace ++ t ∧
      ∀ e ∈ t, e.isLoad = true ∨ e.isMatch = true := by
  unfold loadDefault
  split
  · exact ⟨[], by simp, by simp⟩
  · split
    · rename_i err w1 hl
      exact ⟨[.ClientConfig (.error err)], rfl, by simp [Event.isLoad]⟩
    · rename_i config w1 hl
      split
      · split
        · rename_i err w2 hm
          exact ⟨[.ClientConfig (.ok config),
            .MatchesServerVersion s.cache.defaultClient config (some err)],
            by simp, by simp [Event.isLoad, Event.isMatch]⟩
        · rename_i w2 hm
          exact ⟨[.ClientConfig (.ok config),
            .MatchesServerVersion s.cache.defaultClient config none],
            by simp, by simp [Event.isLoad, Event.isMatch]⟩
      · exact ⟨[.ClientConfig (.ok config)], rfl, by simp [Event.isLoad]⟩

/-- The loop of lines 74-81 when every registry string parses: the parsed list, in
registry order, after one parser call per string. -/
theorem parseRegistered_all (env : Env W) (l : List String) (regs : List GroupVersion)
    (h : List.Forall₂ (fun str gv => env.ParseGroupVersion str = .ok gv) l regs) :
    ∀ acc, parseRegistered env l acc =
      (.ok (acc ++ regs),
        l.map (fun str => Event.ParseGroupVersion str (env.ParseGroupVersion str))) := by
  induction h with
  | nil => intro acc; simp [parseRegistered]
  | cons hx _ ih =>
    intro acc
    simp [parseRegistered, hx, ih]

/-! ## Errors end the call -/

theorem FailFast_append (a b : List Event) (r : Option Error)
    (ha : FailFast a none) (hb : FailFast b r) : FailFast (a ++ b) r := by
  cases r with
  | none =>
    intro x hx
    rcases List.mem_append.1 hx with h | h
    · exact ha x h
    · exact hb x h
  | some e =>
    obtain ⟨pre, ev, rfl, hev, hpre⟩ := hb
    refine ⟨a ++ pre, ev, by simp, hev, ?_⟩
    intro x hx
    rcases List.mem_append.1 hx with h | h
    · exact ha x h
    · exact hpre x h

theorem FailFast_single (ev : Event) : FailFast [ev] ev.failure := by
  cases h : ev.failure with
  | none =>
    intro x hx
    rw [List.mem_singleton.1 hx]
    exact h
  | some e => exact ⟨[], ev, rfl, h, by simp⟩

/-- Lines 47-58: the loader and the version check are each invoked at most once,
and an error of either is what the block returns, right after it occurred. -/
theorem loadDefault_steps (env : Env W) (s : State W) :
    ∃ t, (loadDefault env s).2.trace = s.trace ++ t ∧
      FailFast t (loadDefault env s).1 ∧ Steps 1 1 0 0 0 t := by
  unfold loadDefault
  split
  · exact ⟨[], by simp, by simp [FailFast], by simp [Steps]⟩
  · split
    · rename_i err w1 hl
      exact ⟨[.ClientConfig (.error err)], rfl, FailFast_single _,
        by simp [Steps, Event.isLoad, Event.isMatch, Event.isParse, Event.isNegotiate,
          Event.isNew]⟩
    · rename_i config w1 hl
      split
      · split
        · rename_i err w2 hm
          exact ⟨[.ClientConfig (.ok config)] ++
              [.MatchesServerVersion s.cache.defaultClient config (some err)],
            by simp, FailFast_append _ _ _ (FailFast_single (.ClientConfig (.ok config)))
              (FailFast_single (.MatchesServerVersion s.cache.defaultClient config _)),
            by simp [Steps, Event.isLoad, Event.isMatch, Event.isParse, Event.isNegotiate,
              Event.isNew]⟩
        · rename_i w2 hm
          exact ⟨[.ClientConfig (.ok config)] ++
              [.MatchesServerVersion s.cache.defaultClient config none],
            by simp, FailFast_append _ _ _ (FailFast_single (.ClientConfig (.ok config)))
              (FailFast_single (.MatchesServerVersion s.cache.defaultClient config _)),
            by simp [Steps, Event.isLoad, Event.isMatch, Event.isParse, Event.isNegotiate,
              Event.isNew]⟩
      · exact ⟨[.ClientConfig (.ok config)], rfl, FailFast_single _,
          by simp [Steps, Event.isLoad, Event.isMatch, Event.isParse, Event.isNegotiate,
            Event.isNew]⟩

/-- Lines 66-73: at most one parser call, none for the empty string. -/
theorem parsePreferred_steps (env : Env W) (version : String) :
    FailFast (parsePreferred env version).2 (failureOf (parsePreferred env version).1) ∧
    Steps 0 0 (if version.length > 0 then 1 else 0) 0 0 (parsePreferred env version).2 := by
  unfold parsePreferred
  split
  · rename_i hne
    split
    · exact ⟨FailFast_single _, by simp [Steps, hne, Event.isLoad, Event.isMatch,
        Event.isParse, Event.isNegotiate, Event.isNew]⟩
    · exact ⟨FailFast_single _, by simp [Steps, hne, Event.isLoad, Event.isMatch,
        Event.isParse, Event.isNegotiate, Event.isNew]⟩
  · exact ⟨by simp [FailFast, failureOf], by simp [Steps]⟩

/-- Lines 74-81: at most one parser call per registry string, stopping at the first
error. -/
theorem parseRegistered_steps (env : Env W) (l : List String) :
    ∀ acc, FailFast (parseRegistered env l acc).2 (failureOf (parseRegistered env l acc).1) ∧
      Steps 0 0 l.length 0 0 (parseRegistered env l acc).2 := by
  induction l with
  | nil => intro acc; simp [parseRegistered, FailFast, failureOf, Steps]
  | cons g rest ih =>
    intro acc
    unfold parseRegistered
    split
    · exact ⟨FailFast_single _, by simp [Steps, Event.isLoad, Event.isMatch,
        Event.isParse, Event.isNegotiate, Event.isNew]⟩
    · rename_i gv hg
      obtain ⟨h1, h2⟩ := ih (acc ++ [gv])
      refine ⟨FailFast_append [Event.ParseGroupVersion g (.ok gv)] _ _ (FailFast_single _) h1,
        ?_⟩
      unfold Steps at h2 ⊢
      simp only [List.countP_cons, Event.isLoad, Event.isMatch, Event.isParse,
        Event.isNegotiate, Event.isNew, List.length_cons]
      simp only [Bool.false_eq_true, if_false, if_true]
      omega

theorem Steps_append {a b c d e a' b' c' d' e' : Nat} {t t' : List Event}
    (h : Steps a b c d e t) (h' : Steps a' b' c' d' e' t') :
    Steps (a + a') (b + b') (c + c') (d + d') (e + e') (t ++ t') := by
  unfold Steps at *
  simp only [List.countP_append]
  omega

theorem Steps_mono {a b c d e a' b' c' d' e' : Nat} {t : List Event}
    (h : Steps a b c d e t) (ha : a ≤ a') (hb : b ≤ b') (hc : c ≤ c') (hd : d ≤ d')
    (he : e ≤ e') : Steps a' b' c' d' e' t := by
  unfold Steps at *
  omega

theorem Steps_negotiate (cl : Option Client) (c : Config) (p : Option GroupVersion)
    (r : List GroupVersion) (res : Except Error GroupVersion) :
    Steps 0 0 0 1 0 [Event.NegotiateVersion cl c p r res] := by
  simp [Steps, Event.isLoad, Event.isMatch, Event.isParse, Event.isNegotiate, Event.isNew]

theorem Steps_new (c : Config) (res : Except Error Client) :
    Steps 0 0 0 0 1 [Event.New c res] := by
  simp [Steps, Event.isLoad, Event.isMatch, Event.isParse, Event.isNegotiate, Event.isNew]

/-- One `ClientConfigForVersion` call: its events, against what it returned and
against the step bounds. -/
theorem ClientConfigForVersion_steps (env : Env W) (version : String) (s : State W) :
    ∃ t, (ClientConfigForVersion env version s).2.trace = s.trace ++ t ∧
      FailFast t (ClientConfigForVersion env version s).1.failure ∧
      Steps 1 1 ((if version.length > 0 then 1 else 0) + env.RegisteredVersions.length) 1 0 t := by
  obtain ⟨tl, htl, hfl, hsl⟩ := loadDefault_steps env s
  obtain ⟨hfp, hsp⟩ := parsePreferred_steps env version
  obtain ⟨hfr, hsr⟩ := parseRegistered_steps env env.RegisteredVersions []
  have hsl' := Steps_mono hsl (Nat.le_refl 1) (Nat.le_refl 1)
    (Nat.zero_le ((if version.length > 0 then 1 else 0) + env.RegisteredVersions.length))
    (Nat.zero_le 1) (Nat.le_refl 0)
  unfold ClientConfigForVersion
  split
  · rename_i err s1 hl
    rw [hl] at htl hfl
    exact ⟨tl, htl, hfl, hsl'⟩
  · rename_i s1 hl
    rw [hl] at htl hfl
    have htl' : s1.trace = s.trace ++ tl := htl
    have hfl' : FailFast tl none := hfl
    split
    · exact ⟨tl, htl, hfl, hsl'⟩
    · split
      · exact ⟨tl, htl, hfl, hsl'⟩
      · rename_i d hd
        split
        · rename_i err t1 hp1
          rw [hp1] at hfp hsp
          refine ⟨tl ++ t1, ?_, FailFast_append _ _ _ hfl' hfp, ?_⟩
          · show s1.trace ++ t1 = _
            rw [htl', List.append_assoc]
          · exact Steps_mono (Steps_append hsl hsp) (by omega) (by omega) (by omega)
              (by omega) (by omega)
        · rename_i p t1 hp1
          rw [hp1] at hfp hsp
          have hfp' : FailFast t1 none := hfp
          split
          · rename_i err t2 hr1
            rw [hr1] at hfr hsr
            refine ⟨tl ++ t1 ++ t2, ?_,
              FailFast_append _ _ _ (FailFast_append _ _ _ hfl' hfp') hfr, ?_⟩
            · show s1.trace ++ t1 ++ t2 = _
              rw [htl']
              simp only [List.append_assoc]
            · exact Steps_mono (Steps_append (Steps_append hsl hsp) hsr) (by omega) (by omega)
                (by omega) (by omega) (by omega)
          · rename_i regs t2 hr1
            rw [hr1] at hfr hsr
            have hfr' : FailFast t2 none := hfr
            have hpre := FailFast_append _ _ _ (FailFast_append _ _ _ hfl' hfp') hfr'
            have hall : ∀ res : Except Error GroupVersion,
                s1.trace ++ t1 ++ t2 ++
                  [Event.NegotiateVersion s1.cache.defaultClient d p regs res] =
                s.trace ++ (tl ++ t1 ++ t2 ++
                  [Event.NegotiateVersion s1.cache.defaultClient d p regs res]) ∧
                Steps 1 1 ((if version.length > 0 then 1 else 0) +
                  env.RegisteredVersions.length) 1 0
                  (tl ++ t1 ++ t2 ++
                    [Event.NegotiateVersion s1.cache.defaultClient d p regs res]) := by
              intro res
              refine ⟨by rw [htl']; simp only [List.append_assoc], ?_⟩
              exact Steps_mono
                (Steps_append (Steps_append (Steps_append hsl hsp) hsr)
                  (Steps_negotiate s1.cache.defaultClient d p regs res))
                (by omega) (by omega) (by omega) (by omega) (by omega)
            split
            · rename_i err w hn
              exact ⟨_, (hall (.error err)).1,
                FailFast_append _ _ _ hpre
                  (FailFast_single (.NegotiateVersion s1.cache.defaultClient d p regs
                    (.error err))),
                (hall (.error err)).2⟩
            · rename_i G w hn
              simp only
              split
              · exact ⟨_, (hall (.ok G)).1,
                  FailFast_append _ _ _ hpre
                    (FailFast_single (.NegotiateVersion s1.cache.defaultClient d p regs (.ok G))),
                  (hall (.ok G)).2⟩
              · exact ⟨_, (hall (.ok G)).1,
                  FailFast_append _ _ _ hpre
                    (FailFast_single (.NegotiateVersion s1.cache.defaultClient d p regs (.ok G))),
                  (hall (.ok G)).2⟩

/-- One `ClientForVersion` call: its events, against what it returned and against
the step bounds. -/
theorem ClientForVersion_steps (env : Env W) (version : String) (s : State W) :
    ∃ t, (ClientForVersion env version s).2.trace = s.trace ++ t ∧
      FailFast t (ClientForVersion env version s).1.failure ∧
      Steps 1 1 ((if version.length > 0 then 1 else 0) + env.RegisteredVersions.length) 1 1 t := by
  obtain ⟨t, ht, hf, hs⟩ := ClientConfigForVersion_steps env version s
  unfold ClientForVersion
  split
  · exact ⟨[], by simp, by simp [FailFast, Result.failure], by simp [Steps]⟩
  · split
    · rename_i err s1 hc
      rw [hc] at ht hf
      exact ⟨t, ht, hf, Steps_mono hs (by omega) (by omega) (by omega) (by omega) (by omega)⟩
    · rename_i s1 hc
      rw [hc] at ht hf
      exact ⟨t, ht, hf, Steps_mono hs (by omega) (by omega) (by omega) (by omega) (by omega)⟩
    · rename_i config s1 hc
      rw [hc] at ht hf
      have ht' : s1.trace = s.trace ++ t := ht
      have hf' : FailFast t none := hf
      have hall : ∀ res : Except Error Client,
          s1.trace ++ [Event.New config res] = s.trace ++ (t ++ [Event.New config res]) ∧
          Steps 1 1 ((if version.length > 0 then 1 else 0) +
            env.RegisteredVersions.length) 1 1 (t ++ [Event.New config res]) := by
        intro res
        exact ⟨by rw [ht', List.append_assoc],
          Steps_mono (Steps_append hs (Steps_new config res)) (by omega) (by omega) (by omega)
            (by omega) (by omega)⟩
      split
      · rename_i err w hn
        exact ⟨_, (hall (.error err)).1,
          FailFast_append _ _ _ hf' (FailFast_single (.New config (.error err))),
          (hall (.error err)).2⟩
      · rename_i client w hn
        simp only
        split
        · exact ⟨_, (hall (.ok client)).1,
            FailFast_append _ _ _ hf' (FailFast_single (.New config (.ok client))),
            (hall (.ok client)).2⟩
        · exact ⟨_, (hall (.ok client)).1,
            FailFast_append _ _ _ hf' (FailFast_single (.New config (.ok client))),
            (hall (.ok client)).2⟩

/-! ## The invariant of the two tables -/

/-- The two stores of lines 89 and 94 keep every canonical key canonical. -/
theorem SelfKeyed_assign (env : Env W) (configs : String → Option Config) (version k : String)
    (cfg : Config) (gv : GroupVersion) (hmiss : configs version = none)
    (hgv : cfg.GroupVersion = some gv) (h : SelfKeyed env configs k) :
    SelfKeyed env (assign (assign configs version cfg) (env.gvString gv) cfg) k := by
  obtain ⟨c, g, hc, hg, hk⟩ := h
  by_cases h1 : k = env.gvString gv
  · exact ⟨cfg, gv, by rw [h1]; exact assign_same _ _ _, hgv, h1.symm⟩
  · by_cases h2 : k = version
    · rw [h2, hmiss] at hc
      exact absurd hc (by simp)
    · exact ⟨c, g, by rw [assign_other _ _ _ _ h1, assign_other _ _ _ _ h2]; exact hc, hg, hk⟩

theorem CacheInv_congr (env : Env W) (c c' : ClientCache W)
    (h1 : c'.configs = c.configs) (h2 : c'.clients = c.clients)
    (h3 : c.defaultConfig ≠ none → c'.defaultConfig ≠ none)
    (h : CacheInv env c) : CacheInv env c' := by
  obtain ⟨i1, i2, i3⟩ := h
  refine ⟨?_, ?_, ?_⟩
  · intro k cfg hk
    rw [h1] at hk ⊢
    exact i1 k cfg hk
  · intro k hd hk
    rw [h2] at hk
    rw [h1]
    exact i2 k hd hk
  · intro k cfg hk
    rw [h1] at hk
    exact h3 (i3 k cfg hk)

/-- Lines 47-58 never take the default configuration away. -/
theorem loadDefault_keeps_default (env : Env W) (s : State W)
    (h : s.cache.defaultConfig ≠ none) : (loadDefault env s).2.cache.defaultConfig ≠ none := by
  cases hd : s.cache.defaultConfig with
  | none => exact absurd hd h
  | some d =>
    rw [loadDefault_present env s d hd, hd]
    simp

/-- A `ClientConfigForVersion` call that returns keeps the invariant of the tables. -/
theorem ClientConfigForVersion_inv (env : Env W) (version : String) (s : State W)
    (h : CacheInv env s.cache) (hr : (ClientConfigForVersion env version s).1 ≠ .panic) :
    CacheInv env (ClientConfigForVersion env version s).2.cache := by
  have hf := loadDefault_frame env s
  have h1 : CacheInv env (loadDefault env s).2.cache :=
    CacheInv_congr env _ _ hf.2.1 hf.1 (loadDefault_keeps_default env s) h
  cases hres : ClientConfigForVersion env version s with
  | mk r s' =>
    cases r with
    | panic => simp [hres] at hr
    | error e =>
      rw [ClientConfigForVersion_error env version s s' e hres]
      exact h1
    | ok cfg =>
      obtain ⟨s1, hl, hcase⟩ := ClientConfigForVersion_ok env version s s' cfg hres
      rw [hl] at h1
      rcases hcase with ⟨_, rfl⟩ | ⟨hmiss, d, _, _, _, _, _, w, gv, hd, _, _, _, _, hgv, rfl⟩
      · exact h1
      · obtain ⟨i1, i2, i3⟩ := h1
        have hself : SelfKeyed env
            (assign (assign s1.cache.configs version cfg) (env.gvString gv) cfg)
            (env.gvString gv) := ⟨cfg, gv, assign_same _ _ _, hgv, rfl⟩
        refine ⟨?_, ?_, ?_⟩
        · intro k c hk
          simp only at hk ⊢
          by_cases hk1 : k = env.gvString gv
          · rw [hk1, assign_same] at hk
            obtain rfl := Option.some.inj hk
            exact ⟨gv, hgv, hself⟩
          · rw [assign_other _ _ _ _ hk1] at hk
            by_cases hk2 : k = version
            · rw [hk2, assign_same] at hk
              obtain rfl := Option.some.inj hk
              exact ⟨gv, hgv, hself⟩
            · rw [assign_other _ _ _ _ hk2] at hk
              obtain ⟨g, hg, hsk⟩ := i1 k c hk
              exact ⟨g, hg, SelfKeyed_assign env _ version _ cfg gv hmiss hgv hsk⟩
        · intro k hd' hk
          exact SelfKeyed_assign env _ version _ cfg gv hmiss hgv (i2 k hd' hk)
        · intro k c _
          simp [hd]

/-- A `ClientForVersion` call that returns keeps the invariant of the tables. -/
theorem ClientForVersion_inv (env : Env W) (version : String) (s : State W)
    (h : CacheInv env s.cache) (hr : (ClientForVersion env version s).1 ≠ .panic) :
    CacheInv env (ClientForVersion env version s).2.cache := by
  cases hres : ClientForVersion env version s with
  | mk r s' =>
    cases r with
    | panic => simp [hres] at hr
    | error e =>
      rcases ClientForVersion_error env version s s' e hres with hc | ⟨cfg, s1, w, hc, _, rfl⟩
      · have := ClientConfigForVersion_inv env version s h (by simp [hc])
        rw [hc] at this
        exact this
      · have := ClientConfigForVersion_inv env version s h (by simp [hc])
        rw [hc] at this
        exact this
    | ok c =>
      rcases ClientForVersion_ok env version s s' c hres with
        ⟨_, rfl⟩ | ⟨_, cfg, s1, w, gv, hc, _, hgv, rfl⟩
      · exact h
      · have hinv := ClientConfigForVersion_inv env version s h (by simp [hc])
        rw [hc] at hinv
        obtain ⟨i1, i2, i3⟩ := hinv
        have hst := (ClientConfigForVersion_ok_stored env version s s1 cfg hc).2
        refine ⟨i1, ?_, i3⟩
        intro k hd hk
        simp only at hk ⊢
        by_cases hk1 : k = env.gvString gv
        · obtain ⟨g, hg, hsk⟩ := i1 version cfg hst
          obtain rfl : g = gv := Option.some.inj (hg.symm.trans hgv)
          rw [hk1]
          exact hsk
        · rw [assign_other _ _ _ _ hk1] at hk
          exact i2 k hd hk

/-- Every reachable state satisfies the invariant of the tables. -/
theorem Reachable_inv (env : Env W) (s : State W) (h : Reachable env s) :
    CacheInv env s.cache := by
  induction h with
  | init c w t hclients hconfigs hdefault =>
    refine ⟨?_, ?_, ?_⟩
    · intro k cfg hk
      simp [hconfigs] at hk
    · intro k hd hk
      simp [hclients] at hk
    · intro k cfg hk
      simp [hconfigs] at hk
  | config s version _ hr ih => exact ClientConfigForVersion_inv env version s ih hr
  | client s version _ hr ih => exact ClientForVersion_inv env version s ih hr

/-- `ClientForVersion` never writes the bootstrap client, the flag or the loader. -/
theorem ClientForVersion_keeps (env : Env W) (version : String) (s : State W) :
    (ClientForVersion env version s).2.cache.defaultClient = s.cache.defaultClient ∧
    (ClientForVersion env version s).2.cache.matchVersion = s.cache.matchVersion ∧
    (ClientForVersion env version s).2.cache.loader = s.cache.loader := by
  obtain ⟨_, _, f3, f4, _, f6⟩ := ClientConfigForVersion_frame env version s
  unfold ClientForVersion
  split
  · exact ⟨rfl, rfl, rfl⟩
  · split
    · rename_i err s1 hc
      rw [hc] at f3 f4 f6
      exact ⟨f6, f3, f4⟩
    · rename_i s1 hc
      rw [hc] at f3 f4 f6
      exact ⟨f6, f3, f4⟩
    · rename_i config s1 hc
      rw [hc] at f3 f4 f6
      split
      · exact ⟨f6, f3, f4⟩
      · split <;> exact ⟨f6, f3, f4⟩

/-- With the default configuration present, a `ClientConfigForVersion` call keeps
it and adds no loader event. -/
theorem ClientConfigForVersion_default_kept (env : Env W) (version : String) (s : State W)
    (d : Config) (hd : s.cache.defaultConfig = some d) :
    (ClientConfigForVersion env version s).2.cache.defaultConfig = some d ∧
    ∃ t, (ClientConfigForVersion env version s).2.trace = s.trace ++ t ∧
      t.countP Event.isLoad = 0 := by
  obtain ⟨⟨t, ht, hev⟩, hdef, _⟩ := ClientConfigForVersion_frame env version s
  rw [loadDefault_present env s d hd] at ht hdef
  refine ⟨hdef.trans hd, t, ht, ?_⟩
  exact (countP_quiet t (fun e he => by
    rcases hev e he with h | h
    · exact Or.inl h
    · exact Or.inr (Or.inl h))).2.2

/-- With the default configuration present, a `ClientForVersion` call keeps it and
adds no loader event. -/
theorem ClientForVersion_default_kept (env : Env W) (version : String) (s : State W)
    (d : Config) (hd : s.cache.defaultConfig = some d) :
    (ClientForVersion env version s).2.cache.defaultConfig = some d ∧
    ∃ t, (ClientForVersion env version s).2.trace = s.trace ++ t ∧
      t.countP Event.isLoad = 0 := by
  obtain ⟨h1, t1, ht1, hc1⟩ := ClientConfigForVersion_default_kept env version s d hd
  rcases ClientForVersion_frame env version s with h | ⟨⟨t, ht, hev⟩, hdef, _, _⟩
  · rw [h]
    exact ⟨hd, [], by simp, by simp⟩
  · refine ⟨hdef.trans h1, t1 ++ t, by rw [ht, ht1, List.append_assoc], ?_⟩
    rw [List.countP_append, hc1,
      (countP_quiet t (fun e he => Or.inr (Or.inr (hev e he)))).2.2]

/-! ## Stability of a stored entry -/

/-- The state a call of either method leaves. -/
theorem invoke_snd (env : Env W) (c : Call) (s : State W) :
    (invoke env c s).2 = match c with
      | .ClientConfigForVersion version => (ClientConfigForVersion env version s).2
      | .ClientForVersion version => (ClientForVersion env version s).2 := by
  unfold invoke
  cases c <;> simp only <;> split <;> simp_all

/-- A run only appends to the trace. -/
theorem runCalls_trace (env : Env W) (calls : List Call) :
    ∀ s : State W, ∃ t, (runCalls env calls s).trace = s.trace ++ t := by
  induction calls with
  | nil => intro s; exact ⟨[], by simp [runCalls]⟩
  | cons c rest ih =>
    intro s
    have h1 : ∃ t1, (invoke env c s).2.trace = s.trace ++ t1 := by
      rw [invoke_snd]
      cases c with
      | ClientConfigForVersion version =>
        obtain ⟨t, ht, _⟩ := ClientConfigForVersion_steps env version s
        exact ⟨t, ht⟩
      | ClientForVersion version =>
        obtain ⟨t, ht, _⟩ := ClientForVersion_steps env version s
        exact ⟨t, ht⟩
    obtain ⟨t1, ht1⟩ := h1
    unfold runCalls
    rcases hi : invoke env c s with ⟨b, s1⟩
    rw [hi] at ht1
    cases b with
    | true => exact ⟨t1, ht1⟩
    | false =>
      obtain ⟨t2, ht2⟩ := ih s1
      exact ⟨t1 ++ t2, by simp only; rw [ht2, ht1, List.append_assoc]⟩

/-- A panic of `ClientConfigForVersion`: either nothing was stored, or line 89 was
the last write, under a `version` that was not a key. -/
theorem ClientConfigForVersion_panic (env : Env W) (version : String) (s s' : State W)
    (h : ClientConfigForVersion env version s = (.panic, s')) :
    s'.cache.defaultConfig = (loadDefault env s).2.cache.defaultConfig ∧
    (s'.cache.configs = s.cache.configs ∨
      (s.cache.configs version = none ∧
        ∃ cfg, s'.cache.configs = assign s.cache.configs version cfg)) := by
  have hf := (loadDefault_frame env s).2.1
  unfold ClientConfigForVersion at h
  split at h
  · simp at h
  · rename_i s1 hl
    rw [hl] at hf ⊢
    have hf' : s1.cache.configs = s.cache.configs := hf
    split at h
    · simp at h
    · rename_i hmiss
      split at h
      · simp only [Prod.mk.injEq, true_and] at h
        subst h
        exact ⟨rfl, Or.inl hf'⟩
      · rename_i d hd
        split at h
        · simp at h
        · split at h
          · simp at h
          · split at h
            · simp at h
            · rename_i G w hn
              simp only at h
              split at h
              · simp only [Prod.mk.injEq, true_and] at h
                subst h
                refine ⟨rfl, Or.inr ⟨by rw [← hf']; exact hmiss,
                  env.SetKubernetesDefaults { d with GroupVersion := some G }, ?_⟩⟩
                show assign s1.cache.configs version _ = _
                rw [hf']
              · simp at h

/-- One `ClientConfigForVersion` call keeps a pinned entry pinned, unless one of
its negotiations collides with the key. -/
theorem ClientConfigForVersion_pinned (env : Env W) (hk : KeepsVersion env)
    (version : String) (G : GroupVersion) (version' : String) (s : State W)
    (hp : Pinned version G s.cache) (t : List Event)
    (ht : (ClientConfigForVersion env version' s).2.trace = s.trace ++ t)
    (hc : NoCollision env version G t) :
    Pinned version G (ClientConfigForVersion env version' s).2.cache := by
  obtain ⟨hd, c, hcv, hcG⟩ := hp
  obtain ⟨d, hd'⟩ : ∃ d, s.cache.defaultConfig = some d := by
    cases h : s.cache.defaultConfig with
    | none => exact absurd h hd
    | some d => exact ⟨d, rfl⟩
  have hl := loadDefault_present env s d hd'
  cases hres : ClientConfigForVersion env version' s with
  | mk r s' =>
    rw [hres] at ht
    cases r with
    | error e =>
      have he := ClientConfigForVersion_error env version' s s' e hres
      rw [hl] at he
      simp only
      rw [he]
      exact ⟨hd, c, hcv, hcG⟩
    | panic =>
      obtain ⟨h1, h2⟩ := ClientConfigForVersion_panic env version' s s' hres
      rw [hl] at h1
      refine ⟨by simp only; rw [h1]; exact hd, ?_⟩
      rcases h2 with h2 | ⟨hmiss, cfg, h2⟩
      · exact ⟨c, by simp only; rw [h2]; exact hcv, hcG⟩
      · have hne : version ≠ version' := by
          intro heq
          rw [heq, hmiss] at hcv
          exact absurd hcv (by simp)
        exact ⟨c, by simp only; rw [h2, assign_other _ _ _ _ hne]; exact hcv, hcG⟩
    | ok cfg =>
      obtain ⟨s1, hl1, hcase⟩ := ClientConfigForVersion_ok env version' s s' cfg hres
      rw [hl] at hl1
      obtain rfl : s = s1 := (Prod.mk.inj hl1).2
      rcases hcase with ⟨_, rfl⟩ | ⟨hmiss, d1, p, t1, regs, t2, G', w, gv, hd1, _, _, _, hcfg, hgv, rfl⟩
      · exact ⟨hd, c, hcv, hcG⟩
      · have hgvG : gv = G' := by
          have := hk { d1 with GroupVersion := some G' } G' rfl
          rw [← hcfg, hgv] at this
          exact Option.some.inj this
        subst hgvG
        have hne : version ≠ version' := by
          intro heq
          rw [heq, hmiss] at hcv
          exact absurd hcv (by simp)
        refine ⟨by simp only; rw [hd1]; simp, ?_⟩
        simp only
        by_cases h1 : version = env.gvString gv
        · have hmem : Event.NegotiateVersion s.cache.defaultClient d1 p regs (.ok gv) ∈ t := by
            simp only [List.append_assoc] at ht
            have := List.append_cancel_left ht
            rw [← this]
            simp
          have hG : gv = G := hc _ _ _ _ gv hmem h1.symm
          exact ⟨cfg, by rw [h1]; exact assign_same _ _ _, by rw [hgv, hG]⟩
        · exact ⟨c, by rw [assign_other _ _ _ _ h1, assign_other _ _ _ _ hne]; exact hcv, hcG⟩

theorem NoCollision_left (env : Env W) (version : String) (G : GroupVersion)
    (t1 t2 : List Event) (h : NoCollision env version G (t1 ++ t2)) :
    NoCollision env version G t1 :=
  fun cl c p r G' hm hs => h cl c p r G' (List.mem_append_left _ hm) hs

theorem NoCollision_right (env : Env W) (version : String) (G : GroupVersion)
    (t1 t2 : List Event) (h : NoCollision env version G (t1 ++ t2)) :
    NoCollision env version G t2 :=
  fun cl c p r G' hm hs => h cl c p r G' (List.mem_append_right _ hm) hs

/-- One `ClientForVersion` call keeps a pinned entry pinned, unless one of its
negotiations collides with the key. -/
theorem ClientForVersion_pinned (env : Env W) (hk : KeepsVersion env)
    (version : String) (G : GroupVersion) (version' : String) (s : State W)
    (hp : Pinned version G s.cache) (t : List Event)
    (ht : (ClientForVersion env version' s).2.trace = s.trace ++ t)
    (hc : NoCollision env version G t) :
    Pinned version G (ClientForVersion env version' s).2.cache := by
  rcases ClientForVersion_frame env version' s with h | ⟨⟨t2, ht2, _⟩, hdef, _, hcfg⟩
  · rw [h]; exact hp
  · obtain ⟨t1, ht1, _⟩ := ClientConfigForVersion_steps env version' s
    have ht12 : t = t1 ++ t2 := by
      rw [ht2, ht1, List.append_assoc] at ht
      exact (List.append_cancel_left ht).symm
    rw [ht12] at hc
    obtain ⟨h1, c, h2, h3⟩ := ClientConfigForVersion_pinned env hk version G version' s hp t1 ht1
      (NoCollision_left env version G t1 t2 hc)
    exact ⟨by rw [hdef]; exact h1, c, by rw [hcfg]; exact h2, h3⟩

/-- A run keeps a pinned entry pinned, unless one of its negotiations collides
with the key. -/
theorem runCalls_pinned (env : Env W) (hk : KeepsVersion env) (version : String)
    (G : GroupVersion) (calls : List Call) :
    ∀ (s : State W) (t : List Event), Pinned version G s.cache →
      (runCalls env calls s).trace = s.trace ++ t → NoCollision env version G t →
      Pinned version G (runCalls env calls s).cache := by
  induction calls with
  | nil => intro s t hp _ _; exact hp
  | cons c rest ih =>
    intro s t hp ht hc
    have hstep : ∀ t1, (invoke env c s).2.trace = s.trace ++ t1 →
        NoCollision env version G t1 → Pinned version G (invoke env c s).2.cache := by
      intro t1 ht1 hc1
      rw [invoke_snd] at ht1 ⊢
      cases c with
      | ClientConfigForVersion version' =>
        exact ClientConfigForVersion_pinned env hk version G version' s hp t1 ht1 hc1
      | ClientForVersion version' =>
        exact ClientForVersion_pinned env hk version G version' s hp t1 ht1 hc1
    have htr : ∃ t1, (invoke env c s).2.trace = s.trace ++ t1 := by
      have := runCalls_trace env [c] s
      simp only [runCalls] at this
      rcases hi : invoke env c s with ⟨b, s1⟩
      rw [hi] at this
      cases b <;> exact this
    obtain ⟨t1, ht1⟩ := htr
    unfold runCalls at ht ⊢
    rcases hi : invoke env c s with ⟨b, s1⟩
    rw [hi] at ht ht1 hstep
    cases b with
    | true =>
      simp only at ht ht1 ⊢
      have : t = t1 := by
        rw [ht1] at ht
        exact (List.append_cancel_left ht).symm
      exact hstep t1 ht1 (this ▸ hc)
    | false =>
      simp only at ht ht1 ⊢
      obtain ⟨t2, ht2⟩ := runCalls_trace env rest s1
      have : t = t1 ++ t2 := by
        rw [ht2, ht1, List.append_assoc] at ht
        exact (List.append_cancel_left ht).symm
      rw [this] at hc
      exact ih s1 t2 (hstep t1 ht1 (NoCollision_left env version G t1 t2 hc)) ht2
        (NoCollision_right env version G t1 t2 hc)

/-! ## Settled claims -/

/-- C1: if `ClientConfigForVersion(V)` succeeds with `cfg`, in whatever state, the
same call made right after succeeds with the same configuration and leaves the
whole state as it is: cache, world and trace, so no collaborator (loader, match
check, parser, negotiator) is invoked. -/
theorem ClientConfigForVersion_twice (env : Env W) (version : String) (s s' : State W)
    (cfg : Config) (h : ClientConfigForVersion env version s = (.ok cfg, s')) :
    ClientConfigForVersion env version s' = (.ok cfg, s') ∧
    (ClientConfigForVersion env version s').2.trace = s'.trace := by
  obtain ⟨⟨d, hd⟩, hc⟩ := ClientConfigForVersion_ok_stored env version s s' cfg h
  have h2 := ClientConfigForVersion_hit env version s' d cfg hd hc
  exact ⟨h2, by rw [h2]⟩

/-- Witness for C1: the empty version on a fresh cache over the sample collaborators. -/
theorem ClientConfigForVersion_twice_witness :
    ClientConfigForVersion sampleEnv "" (sampleState false ⟨0, false, false, false⟩) =
      (.ok ⟨"https://localhost", "kubectl", some ⟨"", "v1"⟩⟩,
        (ClientConfigForVersion sampleEnv "" (sampleState false ⟨0, false, false, false⟩)).2) ∧
    ClientConfigForVersion sampleEnv ""
        (ClientConfigForVersion sampleEnv "" (sampleState false ⟨0, false, false, false⟩)).2 =
      (.ok ⟨"https://localhost", "kubectl", some ⟨"", "v1"⟩⟩,
        (ClientConfigForVersion sampleEnv "" (sampleState false ⟨0, false, false, false⟩)).2) :=
  ⟨rfl, (ClientConfigForVersion_twice sampleEnv "" (sampleState false ⟨0, false, false, false⟩)
    (ClientConfigForVersion sampleEnv "" (sampleState false ⟨0, false, false, false⟩)).2
    ⟨"https://localhost", "kubectl", some ⟨"", "v1"⟩⟩ rfl).1⟩

/-- C2, amended: if `ClientConfigForVersion(V)` succeeds with `cfg` whose
group-version has string form `C`, the call `ClientConfigForVersion(C)` made right
after succeeds with the same configuration and leaves cache, world and trace as
they are (no negotiator call), provided that `V` was not yet a key of the config
table (lines 89-96 have just stored the entry under `C`), or that the state is
reachable from a fresh cache, default-filling keeps a set group-version and the
negotiator never answers with two different group-versions that have the same
string form. -/
theorem ClientConfigForVersion_then_canonical (env : Env W) (version : String)
    (s s' : State W) (cfg : Config) (gv : GroupVersion)
    (hstate : s.cache.configs version = none ∨
      (Reachable env s ∧ KeepsVersion env ∧ StringIdentifies env))
    (h : ClientConfigForVersion env version s = (.ok cfg, s'))
    (hgv : cfg.GroupVersion = some gv) :
    ClientConfigForVersion env (env.gvString gv) s' = (.ok cfg, s') ∧
    (ClientConfigForVersion env (env.gvString gv) s').2.trace = s'.trace := by
  obtain ⟨⟨d, hd⟩, hc⟩ := ClientConfigForVersion_ok_stored env version s s' cfg h
  have hcan : s'.cache.configs (env.gvString gv) = some cfg := by
    rcases hstate with hmiss | ⟨hreach, hk, hs⟩
    · obtain ⟨s1, hl, hcase⟩ := ClientConfigForVersion_ok env version s s' cfg h
      have hf := (loadDefault_frame env s).2.1
      rw [hl] at hf
      rcases hcase with ⟨hc1, _⟩ | ⟨_, _, _, _, _, _, _, _, gv', _, _, _, _, _, hgv', rfl⟩
      · rw [hf, hmiss] at hc1
        exact absurd hc1 (by simp)
      · have : gv' = gv := Option.some.inj (hgv'.symm.trans hgv)
        subst this
        exact assign_same _ _ _
    · have hnp : (ClientConfigForVersion env version s).1 ≠ .panic := by simp [h]
      have hr := Reachable.config s version hreach hnp
      rw [h] at hr
      obtain ⟨d', G, _, _, hcfg, hcanG⟩ := Reachable_dualKeyed env hk hs s' hr version cfg hc
      have hG := hk { d' with GroupVersion := some G } G rfl
      rw [← hcfg, hgv] at hG
      obtain rfl := Option.some.inj hG
      exact hcanG
  have h2 := ClientConfigForVersion_hit env (env.gvString gv) s' d cfg hd hcan
  exact ⟨h2, by rw [h2]⟩

/-- Witness for C2 amended: on a cache that has already resolved the empty version, the
empty version is a hit whose canonical string is `v1`. -/
theorem ClientConfigForVersion_then_canonical_witness :
    Reachable sampleEnv
      (ClientConfigForVersion sampleEnv "" (sampleState false ⟨0, false, false, false⟩)).2 ∧
    KeepsVersion sampleEnv ∧ StringIdentifies sampleEnv ∧
    ClientConfigForVersion sampleEnv "" (ClientConfigForVersion sampleEnv ""
        (sampleState false ⟨0, false, false, false⟩)).2 =
      (.ok ⟨"https://localhost", "kubectl", some ⟨"", "v1"⟩⟩,
        (ClientConfigForVersion sampleEnv "" (sampleState false ⟨0, false, false, false⟩)).2) ∧
    ClientConfigForVersion sampleEnv "v1" (ClientConfigForVersion sampleEnv ""
        (sampleState false ⟨0, false, false, false⟩)).2 =
      (.ok ⟨"https://localhost", "kubectl", some ⟨"", "v1"⟩⟩,
        (ClientConfigForVersion sampleEnv "" (sampleState false ⟨0, false, false, false⟩)).2) :=
  have hr : Reachable sampleEnv
      (ClientConfigForVersion sampleEnv "" (sampleState false ⟨0, false, false, false⟩)).2 :=
    Reachable.config _ "" (Reachable.init _ _ _ rfl rfl rfl) (by decide)
  ⟨hr, sampleEnv_keepsVersion, sampleEnv_stringIdentifies, rfl,
    (ClientConfigForVersion_then_canonical sampleEnv ""
      (ClientConfigForVersion sampleEnv "" (sampleState false ⟨0, false, false, false⟩)).2
      (ClientConfigForVersion sampleEnv "" (sampleState false ⟨0, false, false, false⟩)).2
      ⟨"https://localhost", "kubectl", some ⟨"", "v1"⟩⟩ ⟨"", "v1"⟩
      (Or.inr ⟨hr, sampleEnv_keepsVersion, sampleEnv_stringIdentifies⟩) rfl rfl).1⟩

/-- C3: when `version` is not yet a key of the config table and
`ClientConfigForVersion(version)` succeeds, the last collaborator call was a
successful negotiation, with answer `G` say; the table then has the returned
configuration under `version` and under the string form of its group-version,
and that group-version is `G` when default-filling keeps a set group-version. -/
theorem ClientConfigForVersion_stores_both (env : Env W) (version : String)
    (s s' : State W) (cfg : Config) (hmiss : s.cache.configs version = none)
    (h : ClientConfigForVersion env version s = (.ok cfg, s')) :
    ∃ gv G cl c p r,
      s'.trace.getLast? = some (.NegotiateVersion cl c p r (.ok G)) ∧
      cfg.GroupVersion = some gv ∧
      s'.cache.configs version = some cfg ∧
      s'.cache.configs (env.gvString gv) = some cfg ∧
      (KeepsVersion env → gv = G) := by
  obtain ⟨s1, hl, hcase⟩ := ClientConfigForVersion_ok env version s s' cfg h
  have hf := (loadDefault_frame env s).2.1
  rw [hl] at hf
  rcases hcase with ⟨hc1, _⟩ | ⟨_, d, p, t1, regs, t2, G, w, gv, _, _, _, _, hcfg, hgv, rfl⟩
  · rw [hf, hmiss] at hc1
    exact absurd hc1 (by simp)
  · refine ⟨gv, G, s1.cache.defaultClient, d, p, regs, List.getLast?_concat _, hgv,
      (ClientConfigForVersion_ok_stored env version s _ cfg h).2, assign_same _ _ _, ?_⟩
    intro hk
    have := hk { d with GroupVersion := some G } G rfl
    rw [← hcfg, hgv] at this
    exact Option.some.inj this

/-- Witness for C3: version `v2` on a fresh cache over the sample collaborators. -/
theorem ClientConfigForVersion_stores_both_witness :
    (sampleState false ⟨0, false, false, false⟩).cache.configs "v2" = none ∧
    ClientConfigForVersion sampleEnv "v2" (sampleState false ⟨0, false, false, false⟩) =
      (.ok ⟨"https://localhost", "kubectl", some ⟨"", "v2"⟩⟩,
        (ClientConfigForVersion sampleEnv "v2" (sampleState false ⟨0, false, false, false⟩)).2) ∧
    ∃ gv G cl c p r,
      (ClientConfigForVersion sampleEnv "v2"
        (sampleState false ⟨0, false, false, false⟩)).2.trace.getLast? =
          some (.NegotiateVersion cl c p r (.ok G)) ∧
      (⟨"https://localhost", "kubectl", some ⟨"", "v2"⟩⟩ : Config).GroupVersion = some gv ∧
      (ClientConfigForVersion sampleEnv "v2"
        (sampleState false ⟨0, false, false, false⟩)).2.cache.configs "v2" =
          some ⟨"https://localhost", "kubectl", some ⟨"", "v2"⟩⟩ ∧
      (ClientConfigForVersion sampleEnv "v2"
        (sampleState false ⟨0, false, false, false⟩)).2.cache.configs (sampleEnv.gvString gv) =
          some ⟨"https://localhost", "kubectl", some ⟨"", "v2"⟩⟩ ∧
      (KeepsVersion sampleEnv → gv = G) :=
  ⟨rfl, rfl, ClientConfigForVersion_stores_both sampleEnv "v2"
    (sampleState false ⟨0, false, false, false⟩)
    (ClientConfigForVersion sampleEnv "v2" (sampleState false ⟨0, false, false, false⟩)).2
    ⟨"https://localhost", "kubectl", some ⟨"", "v2"⟩⟩ rfl rfl⟩

/-- C4: if `ClientForVersion(V)` succeeds with handle `h`, there is a key `C` that the
client table then maps to `h` and for which `ClientForVersion(C)`, made right
after, returns `h` leaving cache, world and trace as they are (no loader,
negotiator or constructor call).  When the call resolved a configuration (`V` was
not a key of the client table), `C` is the string form of that configuration's
group-version; on the fast path it is `V` itself. -/
theorem ClientForVersion_stores_canonical (env : Env W) (version : String)
    (s s' : State W) (h : Client) (hok : ClientForVersion env version s = (.ok h, s')) :
    ∃ C, s'.cache.clients C = some h ∧ ClientForVersion env C s' = (.ok h, s') ∧
      ((s.cache.clients version = some h ∧ C = version) ∨
       (s.cache.clients version = none ∧ ∃ cfg gv,
          (ClientConfigForVersion env version s).1 = .ok cfg ∧
          cfg.GroupVersion = some gv ∧ C = env.gvString gv)) := by
  rcases ClientForVersion_ok env version s s' h hok with
    ⟨hc, rfl⟩ | ⟨hmiss, cfg, s1, w, gv, hcfg, _, hgv, rfl⟩
  · exact ⟨version, hc, ClientForVersion_hit env version s' h hc, Or.inl ⟨hc, rfl⟩⟩
  · refine ⟨env.gvString gv, assign_same _ _ _,
      ClientForVersion_hit env _ _ h (assign_same _ _ _), Or.inr ⟨hmiss, cfg, gv, ?_, hgv, rfl⟩⟩
    rw [hcfg]

/-- Witness for C4: the empty version on a fresh cache resolves to `v1`, and the
client is stored under `v1`. -/
theorem ClientForVersion_stores_canonical_witness :
    ClientForVersion sampleEnv "" (sampleState false ⟨0, false, false, false⟩) =
      (.ok 0, (ClientForVersion sampleEnv "" (sampleState false ⟨0, false, false, false⟩)).2) ∧
    (ClientForVersion sampleEnv ""
      (sampleState false ⟨0, false, false, false⟩)).2.cache.clients "v1" = some 0 ∧
    ClientForVersion sampleEnv "v1"
        (ClientForVersion sampleEnv "" (sampleState false ⟨0, false, false, false⟩)).2 =
      (.ok 0, (ClientForVersion sampleEnv "" (sampleState false ⟨0, false, false, false⟩)).2) ∧
    ∃ C, (ClientForVersion sampleEnv ""
        (sampleState false ⟨0, false, false, false⟩)).2.cache.clients C = some 0 ∧
      ClientForVersion sampleEnv C
          (ClientForVersion sampleEnv "" (sampleState false ⟨0, false, false, false⟩)).2 =
        (.ok 0, (ClientForVersion sampleEnv "" (sampleState false ⟨0, false, false, false⟩)).2) ∧
      (((sampleState false ⟨0, false, false, false⟩).cache.clients "" = some 0 ∧ C = "") ∨
       ((sampleState false ⟨0, false, false, false⟩).cache.clients "" = none ∧ ∃ cfg gv,
          (ClientConfigForVersion sampleEnv ""
            (sampleState false ⟨0, false, false, false⟩)).1 = .ok cfg ∧
          cfg.GroupVersion = some gv ∧ C = sampleEnv.gvString gv)) :=
  ⟨rfl, rfl, rfl, ClientForVersion_stores_canonical sampleEnv ""
    (sampleState false ⟨0, false, false, false⟩)
    (ClientForVersion sampleEnv "" (sampleState false ⟨0, false, false, false⟩)).2 0 rfl⟩

/-- C5, evaluated: over the sample collaborators the empty version resolves to
`v1`, so the client is stored under `v1` only; the second `ClientForVersion("")`
misses the client table, invokes the constructor again and returns another handle. -/
theorem ClientForVersion_alias_rebuilds :
    (ClientForVersion sampleEnv "" (sampleState false ⟨0, false, false, false⟩)).1 = .ok 0 ∧
    (ClientForVersion sampleEnv ""
      (sampleState false ⟨0, false, false, false⟩)).2.cache.clients "" = none ∧
    (ClientForVersion sampleEnv ""
      (sampleState false ⟨0, false, false, false⟩)).2.cache.clients "v1" = some 0 ∧
    (ClientForVersion sampleEnv "" (ClientForVersion sampleEnv ""
      (sampleState false ⟨0, false, false, false⟩)).2).1 = .ok 1 ∧
    (runCalls sampleEnv [.ClientForVersion "", .ClientForVersion ""]
      (sampleState false ⟨0, false, false, false⟩)).trace.countP Event.isNew = 2 := by
  decide

/-- C6: over every finite sequence of calls of either method, from any state,
`MatchesServerVersion` is invoked at most once more, and not at all when the
match-version flag is false. -/
theorem MatchesServerVersion_at_most_once (env : Env W) (calls : List Call) (s : State W) :
    (runCalls env calls s).trace.countP Event.isMatch ≤ s.trace.countP Event.isMatch + 1 ∧
    (runCalls env calls s).trace.countP Event.isMatch ≤
      s.trace.countP Event.isMatch + (if s.cache.matchVersion then 1 else 0) := by
  have h := (runCalls_budget env calls s).1
  have hb : matchBudget s ≤ (if s.cache.matchVersion then 1 else 0) := by
    unfold matchBudget loadBudget
    cases s.cache.matchVersion <;> cases s.cache.defaultConfig.isSome <;> simp
  have hb1 : (if s.cache.matchVersion then 1 else 0) ≤ 1 := by split <;> simp
  constructor <;> omega

/-- C7, evaluated: with the flag set and a server whose version does not match, the
first call returns the mismatch error but leaves the loaded configuration in
`defaultConfig`; the second call skips lines 48-57, so it neither loads nor checks
again, and succeeds. -/
theorem MatchesServerVersion_failure_sticks :
    (ClientConfigForVersion sampleEnv "v1" (sampleState true ⟨0, false, true, false⟩)).1 =
      .error "server version mismatch" ∧
    (ClientConfigForVersion sampleEnv "v1"
      (sampleState true ⟨0, false, true, false⟩)).2.cache.defaultConfig =
        some ⟨"https://localhost", "", none⟩ ∧
    (ClientConfigForVersion sampleEnv "v1" (ClientConfigForVersion sampleEnv "v1"
      (sampleState true ⟨0, false, true, false⟩)).2).1 =
        .ok ⟨"https://localhost", "kubectl", some ⟨"", "v1"⟩⟩ ∧
    (ClientConfigForVersion sampleEnv "v1" (ClientConfigForVersion sampleEnv "v1"
      (sampleState true ⟨0, false, true, false⟩)).2).2.trace.countP Event.isMatch = 1 ∧
    (ClientConfigForVersion sampleEnv "v1" (ClientConfigForVersion sampleEnv "v1"
      (sampleState true ⟨0, false, true, false⟩)).2).2.trace.countP Event.isLoad = 1 := by
  decide

/-- C8 fails as stated: with a loader that keeps failing, two calls invoke it twice. -/
theorem loader_invoked_twice :
    ¬ ((runCalls sampleEnv [.ClientConfigForVersion "v1", .ClientConfigForVersion "v1"]
      (sampleState false ⟨0, true, false, false⟩)).trace.countP Event.isLoad ≤ 1) := by
  decide

/-- C8, amended: over every finite sequence of calls of either method, from any
state, the loader succeeds at most once more and is invoked at most once per call,
and not at all when the default configuration is already present. -/
theorem loader_succeeds_at_most_once (env : Env W) (calls : List Call) (s : State W) :
    (runCalls env calls s).trace.countP Event.isLoadOk ≤ s.trace.countP Event.isLoadOk + 1 ∧
    (runCalls env calls s).trace.countP Event.isLoad ≤
      s.trace.countP Event.isLoad +
        (if s.cache.defaultConfig.isSome then 0 else calls.length) := by
  obtain ⟨_, h2, h3⟩ := runCalls_budget env calls s
  have hle : loadBudget s ≤ 1 := by
    unfold loadBudget
    split <;> simp
  have hb : loadBudget s * calls.length =
      (if s.cache.defaultConfig.isSome then 0 else calls.length) := by
    unfold loadBudget
    cases s.cache.defaultConfig.isSome <;> simp
  rw [hb] at h3
  exact ⟨by omega, h3⟩

/-- C9: when the default configuration is absent and the loader fails with `e`,
`ClientConfigForVersion(V)` returns `e` for every `V` and leaves the cache exactly
as it was (default configuration absent, both tables untouched); the only effects
are the loader invocation and what it did to the world.  Any next call starts by
invoking the loader again. -/
theorem loader_error_not_cached (env : Env W) (version : String) (s : State W)
    (e : Error) (w1 : W) (hd : s.cache.defaultConfig = none)
    (hl : s.cache.loader s.world = (.error e, w1)) :
    ClientConfigForVersion env version s =
      (.error e, ⟨s.cache, w1, s.trace ++ [.ClientConfig (.error e)]⟩) ∧
    ∀ version', ∃ t,
      (ClientConfigForVersion env version'
        ⟨s.cache, w1, s.trace ++ [.ClientConfig (.error e)]⟩).2.trace =
      s.trace ++ [.ClientConfig (.error e)] ++ Event.ClientConfig (s.cache.loader w1).1 :: t := by
  constructor
  · simp [ClientConfigForVersion, loadDefault, hd, hl]
  · intro version'
    obtain ⟨⟨t, ht, _⟩, _⟩ := ClientConfigForVersion_frame env version'
      ⟨s.cache, w1, s.trace ++ [.ClientConfig (.error e)]⟩
    obtain ⟨t', ht'⟩ := loadDefault_absent env
      ⟨s.cache, w1, s.trace ++ [.ClientConfig (.error e)]⟩ hd
    exact ⟨t' ++ t, by rw [ht, ht']; simp⟩

/-- Witness for C9: a failing loader on a fresh cache. -/
theorem loader_error_not_cached_witness :
    (sampleState false ⟨0, true, false, false⟩).cache.defaultConfig = none ∧
    (sampleState false ⟨0, true, false, false⟩).cache.loader
      (sampleState false ⟨0, true, false, false⟩).world =
        (.error "no configuration", ⟨0, true, false, false⟩) ∧
    ClientConfigForVersion sampleEnv "v1" (sampleState false ⟨0, true, false, false⟩) =
      (.error "no configuration",
        ⟨(sampleState false ⟨0, true, false, false⟩).cache, ⟨0, true, false, false⟩,
          [] ++ [.ClientConfig (.error "no configuration")]⟩) :=
  ⟨rfl, rfl, (loader_error_not_cached sampleEnv "v1" (sampleState false ⟨0, true, false, false⟩)
    "no configuration" ⟨0, true, false, false⟩ rfl rfl).1⟩

/-- C10 fails as stated: when the constructor fails, `ClientForVersion` returns its
error after config resolution has already stored the configuration. -/
theorem ClientForVersion_error_keeps_config :
    (ClientForVersion sampleEnv "" (sampleState false ⟨0, false, false, true⟩)).1 =
      .error "connection refused" ∧
    (sampleState false ⟨0, false, false, true⟩).cache.configs "" = none ∧
    (ClientForVersion sampleEnv "" (sampleState false ⟨0, false, false, true⟩)).2.cache.configs ""
      = some ⟨"https://localhost", "kubectl", some ⟨"", "v1"⟩⟩ ∧
    (ClientForVersion sampleEnv "" (sampleState false ⟨0, false, false, true⟩)).2.cache.configs
      ≠ (sampleState false ⟨0, false, false, true⟩).cache.configs :=
  ⟨by decide, by decide, by decide, fun h => absurd (congrFun h "") (by decide)⟩

/-- C10, amended: if `ClientForVersion(V)` returns an error, the client table is
exactly as before the call.  When the error came from config resolution the
config table is exactly as before too; when it came from the constructor, the
config table is the one the successful config resolution left. -/
theorem ClientForVersion_error_tables (env : Env W) (version : String) (s s' : State W)
    (e : Error) (h : ClientForVersion env version s = (.error e, s')) :
    s'.cache.clients = s.cache.clients ∧
    (((ClientConfigForVersion env version s).1 = .error e ∧
        s'.cache.configs = s.cache.configs) ∨
     (∃ cfg, (ClientConfigForVersion env version s).1 = .ok cfg ∧
        (env.New cfg (ClientConfigForVersion env version s).2.world).1 = .error e ∧
        s'.cache.configs = (ClientConfigForVersion env version s).2.cache.configs)) := by
  have hfr := ClientConfigForVersion_frame env version s
  rcases ClientForVersion_error env version s s' e h with hc | ⟨cfg, s1, w, hc, hn, rfl⟩
  · have he := ClientConfigForVersion_error env version s s' e hc
    have hf := loadDefault_frame env s
    refine ⟨by rw [he]; exact hf.1, Or.inl ⟨by rw [hc], by rw [he]; exact hf.2.1⟩⟩
  · rw [hc] at hfr
    refine ⟨hfr.2.2.2.2.1, Or.inr ⟨cfg, by rw [hc], by rw [hc, hn], by rw [hc]⟩⟩

/-- Witness for C10 amended: the constructor fails after the empty version was resolved. -/
theorem ClientForVersion_error_tables_witness :
    ClientForVersion sampleEnv "" (sampleState false ⟨0, false, false, true⟩) =
      (.error "connection refused",
        (ClientForVersion sampleEnv "" (sampleState false ⟨0, false, false, true⟩)).2) ∧
    (ClientForVersion sampleEnv "" (sampleState false ⟨0, false, false, true⟩)).2.cache.clients =
      (sampleState false ⟨0, false, false, true⟩).cache.clients :=
  ⟨rfl, (ClientForVersion_error_tables sampleEnv "" (sampleState false ⟨0, false, false, true⟩)
    (ClientForVersion sampleEnv "" (sampleState false ⟨0, false, false, true⟩)).2
    "connection refused" rfl).1⟩


/-- C11: if `ClientConfigForVersion(V)` returns an error, whichever collaborator it
came from and in whatever state, the config table and the client table are
exactly as they were before the call. -/
theorem ClientConfigForVersion_error_tables (env : Env W) (version : String)
    (s s' : State W) (e : Error)
    (h : ClientConfigForVersion env version s = (.error e, s')) :
    s'.cache.configs = s.cache.configs ∧ s'.cache.clients = s.cache.clients := by
  have he := ClientConfigForVersion_error env version s s' e h
  have hf := loadDefault_frame env s
  rw [he]
  exact ⟨hf.2.1, hf.1⟩

/-- Witness for C11: a version the negotiator refuses (parsed, but not registered). -/
theorem ClientConfigForVersion_error_tables_witness :
    ClientConfigForVersion sampleEnv "v9" (sampleState false ⟨0, false, false, false⟩) =
      (.error "API version is not supported by client",
        (ClientConfigForVersion sampleEnv "v9" (sampleState false ⟨0, false, false, false⟩)).2) ∧
    (ClientConfigForVersion sampleEnv "v9"
      (sampleState false ⟨0, false, false, false⟩)).2.cache.configs =
      (sampleState false ⟨0, false, false, false⟩).cache.configs ∧
    (ClientConfigForVersion sampleEnv "v9"
      (sampleState false ⟨0, false, false, false⟩)).2.cache.clients =
      (sampleState false ⟨0, false, false, false⟩).cache.clients :=
  ⟨rfl, ClientConfigForVersion_error_tables sampleEnv "v9"
    (sampleState false ⟨0, false, false, false⟩)
    (ClientConfigForVersion sampleEnv "v9" (sampleState false ⟨0, false, false, false⟩)).2
    "API version is not supported by client" rfl⟩

/-- C12: for a non-empty `version` that the parser rejects with `e` and that is not a
key of the config table, once lines 47-58 have gone through (leaving state `s1`),
`ClientConfigForVersion` returns `e`; all it does after lines 47-58 is the one
parser call, so the negotiator is not invoked, and the config table still has no
entry for `version`. -/
theorem ClientConfigForVersion_malformed (env : Env W) (version : String) (s s1 : State W)
    (e : Error) (hne : version.length > 0) (hp : env.ParseGroupVersion version = .error e)
    (hmiss : s.cache.configs version = none) (hb : loadDefault env s = (none, s1)) :
    ClientConfigForVersion env version s =
      (.error e, { s1 with trace := s1.trace ++ [.ParseGroupVersion version (.error e)] }) ∧
    (∃ t, (ClientConfigForVersion env version s).2.trace = s.trace ++ t ∧
      t.countP Event.isNegotiate = 0) ∧
    (ClientConfigForVersion env version s).2.cache.configs version = none := by
  obtain ⟨d, hd⟩ := loadDefault_none env s s1 hb
  have hf := (loadDefault_frame env s).2.1
  rw [hb] at hf
  have hm1 : s1.cache.configs version = none := by
    have : s1.cache.configs = s.cache.configs := hf
    rw [this]; exact hmiss
  have hcall : ClientConfigForVersion env version s =
      (.error e, { s1 with trace := s1.trace ++ [.ParseGroupVersion version (.error e)] }) := by
    simp [ClientConfigForVersion, hb, hm1, hd, parsePreferred, hne, hp]
  refine ⟨hcall, ?_, ?_⟩
  · obtain ⟨tl, htl, hev⟩ := loadDefault_trace env s
    rw [hb] at htl
    refine ⟨tl ++ [.ParseGroupVersion version (.error e)], ?_, ?_⟩
    · rw [hcall]
      show s1.trace ++ _ = _
      rw [htl, List.append_assoc]
    · rw [List.countP_eq_zero]
      intro ev hev'
      rcases List.mem_append.1 hev' with h1 | h1
      · rcases hev ev h1 with h2 | h2 <;> cases ev <;>
          simp_all [Event.isLoad, Event.isMatch, Event.isNegotiate]
      · rw [List.mem_singleton.1 h1]
        simp [Event.isNegotiate]
  · rw [hcall]
    exact hm1

/-- Witness for C12: the malformed version `???` on a fresh cache. -/
theorem ClientConfigForVersion_malformed_witness :
    ("???" : String).length > 0 ∧
    sampleEnv.ParseGroupVersion "???" = .error "unexpected GroupVersion string" ∧
    (ClientConfigForVersion sampleEnv "???"
      (sampleState false ⟨0, false, false, false⟩)).1 =
        .error "unexpected GroupVersion string" ∧
    (ClientConfigForVersion sampleEnv "???"
      (sampleState false ⟨0, false, false, false⟩)).2.cache.configs "???" = none :=
  ⟨by decide, rfl,
    congrArg Prod.fst (ClientConfigForVersion_malformed sampleEnv "???"
      (sampleState false ⟨0, false, false, false⟩)
      (loadDefault sampleEnv (sampleState false ⟨0, false, false, false⟩)).2
      "unexpected GroupVersion string" (by decide) rfl rfl rfl).1,
    (ClientConfigForVersion_malformed sampleEnv "???"
      (sampleState false ⟨0, false, false, false⟩)
      (loadDefault sampleEnv (sampleState false ⟨0, false, false, false⟩)).2
      "unexpected GroupVersion string" (by decide) rfl rfl rfl).2.2⟩

/-- C15: `ClientConfigForVersion` leaves the client table as it is, whatever the
state and whatever the outcome (value, error or panic); the only write to the
client table is line 114 of `ClientForVersion`. -/
theorem ClientConfigForVersion_keeps_clients (env : Env W) (version : String) (s : State W) :
    (ClientConfigForVersion env version s).2.cache.clients = s.cache.clients :=
  (ClientConfigForVersion_frame env version s).2.2.2.2.1

/-- C18: on a config-table miss with the default configuration `d` present, when
`version` (if non-empty) and every registry string parse, the call appends to the
trace exactly: the parse of `version` when it is non-empty (nothing when it is
empty), one parse per registry string in registry order, and one negotiator call
with the bootstrap client, `d`, the preferred group-version (absent for the empty
string, the parse of `version` otherwise) and the parsed registry. -/
theorem ClientConfigForVersion_negotiates_once (env : Env W) (version : String)
    (s : State W) (d : Config) (preferredGV : Option GroupVersion)
    (registeredGVs : List GroupVersion)
    (hd : s.cache.defaultConfig = some d) (hmiss : s.cache.configs version = none)
    (hpref : (version.length > 0 ∧ ∃ gv, env.ParseGroupVersion version = .ok gv ∧
        preferredGV = some gv) ∨ (¬ version.length > 0 ∧ preferredGV = none))
    (hregs : List.Forall₂ (fun str gv => env.ParseGroupVersion str = .ok gv)
      env.RegisteredVersions registeredGVs) :
    (ClientConfigForVersion env version s).2.trace =
      s.trace ++
      (if version.length > 0 then
        [Event.ParseGroupVersion version (env.ParseGroupVersion version)] else []) ++
      env.RegisteredVersions.map
        (fun str => Event.ParseGroupVersion str (env.ParseGroupVersion str)) ++
      [Event.NegotiateVersion s.cache.defaultClient d preferredGV registeredGVs
        (env.NegotiateVersion s.cache.defaultClient d preferredGV registeredGVs s.world).1] ∧
    ∃ t, (ClientConfigForVersion env version s).2.trace = s.trace ++ t ∧
      t.countP Event.isNegotiate = 1 := by
  have hr := parseRegistered_all env env.RegisteredVersions registeredGVs hregs []
  simp only [List.nil_append] at hr
  have hpp : parsePreferred env version = (.ok preferredGV,
      if version.length > 0 then
        [Event.ParseGroupVersion version (env.ParseGroupVersion version)] else []) := by
    rcases hpref with ⟨hne, gv, hp, rfl⟩ | ⟨he, rfl⟩
    · simp [parsePreferred, hne, hp]
    · simp [parsePreferred, he]
  have htrace : (ClientConfigForVersion env version s).2.trace =
      s.trace ++
      (if version.length > 0 then
        [Event.ParseGroupVersion version (env.ParseGroupVersion version)] else []) ++
      env.RegisteredVersions.map
        (fun str => Event.ParseGroupVersion str (env.ParseGroupVersion str)) ++
      [Event.NegotiateVersion s.cache.defaultClient d preferredGV registeredGVs
        (env.NegotiateVersion s.cache.defaultClient d preferredGV registeredGVs s.world).1] := by
    unfold ClientConfigForVersion
    simp only [loadDefault_present env s d hd, hmiss, hd, hpp, hr]
    split
    · rename_i err w hn
      simp [hn]
    · rename_i G w hn
      simp only [hn]
      split <;> rfl
  refine ⟨htrace, _, by rw [htrace, List.append_assoc, List.append_assoc], ?_⟩
  rw [List.countP_append, List.countP_append]
  have h1 : List.countP Event.isNegotiate (if version.length > 0 then
      [Event.ParseGroupVersion version (env.ParseGroupVersion version)] else []) = 0 := by
    split <;> simp [Event.isNegotiate]
  have h2 : List.countP Event.isNegotiate (env.RegisteredVersions.map
      (fun str => Event.ParseGroupVersion str (env.ParseGroupVersion str))) = 0 := by
    rw [List.countP_eq_zero]
    intro ev hev
    obtain ⟨str, _, rfl⟩ := List.mem_map.1 hev
    simp [Event.isNegotiate]
  rw [h1, h2]
  simp [Event.isNegotiate]

/-- Witness for C18: version `v2` on a cache that has resolved the empty version. -/
theorem ClientConfigForVersion_negotiates_once_witness :
    (ClientConfigForVersion sampleEnv "" (sampleState false ⟨0, false, false, false⟩)).2.cache.defaultConfig
      = some ⟨"https://localhost", "", none⟩ ∧
    (ClientConfigForVersion sampleEnv ""
      (sampleState false ⟨0, false, false, false⟩)).2.cache.configs "v2" = none ∧
    (ClientConfigForVersion sampleEnv "v2" (ClientConfigForVersion sampleEnv ""
      (sampleState false ⟨0, false, false, false⟩)).2).2.trace =
      (ClientConfigForVersion sampleEnv "" (sampleState false ⟨0, false, false, false⟩)).2.trace ++
      [Event.ParseGroupVersion "v2" (.ok ⟨"", "v2"⟩)] ++
      [Event.ParseGroupVersion "v1" (.ok ⟨"", "v1"⟩),
        Event.ParseGroupVersion "v2" (.ok ⟨"", "v2"⟩)] ++
      [Event.NegotiateVersion none ⟨"https://localhost", "", none⟩ (some ⟨"", "v2"⟩)
        [⟨"", "v1"⟩, ⟨"", "v2"⟩] (.ok ⟨"", "v2"⟩)] :=
  ⟨rfl, rfl, (ClientConfigForVersion_negotiates_once sampleEnv "v2"
    (ClientConfigForVersion sampleEnv "" (sampleState false ⟨0, false, false, false⟩)).2
    ⟨"https://localhost", "", none⟩ (some ⟨"", "v2"⟩) [⟨"", "v1"⟩, ⟨"", "v2"⟩] rfl rfl
    (Or.inl ⟨by decide, ⟨"", "v2"⟩, rfl, rfl⟩)
    (List.Forall₂.cons rfl (List.Forall₂.cons rfl List.Forall₂.nil))).1⟩

/-- C14: in a single call of either method, from any state, the events `t` the
call appends to the trace are fail-fast against what the call returns: if it
returns the error `e`, the last event is a collaborator returning exactly `e` and
no earlier collaborator of the call failed; if it does not return an error, no
collaborator failed.  No step is repeated: at most one load, one version check,
one negotiation, one construction, and one parse per string to parse. -/
theorem first_error_ends_call (env : Env W) (version : String) (s : State W) :
    (∃ t, (ClientConfigForVersion env version s).2.trace = s.trace ++ t ∧
      FailFast t (ClientConfigForVersion env version s).1.failure ∧ NoRetry env version t) ∧
    (∃ t, (ClientForVersion env version s).2.trace = s.trace ++ t ∧
      FailFast t (ClientForVersion env version s).1.failure ∧ NoRetry env version t) := by
  obtain ⟨t1, h1, f1, s1⟩ := ClientConfigForVersion_steps env version s
  obtain ⟨t2, h2, f2, s2⟩ := ClientForVersion_steps env version s
  exact ⟨⟨t1, h1, f1, Steps_mono s1 (by omega) (by omega) (by omega) (by omega) (by omega)⟩,
    ⟨t2, h2, f2, s2⟩⟩

/-- C16: a call of either method made with the default configuration present
leaves it identical, appends no loader event, and leaves the bootstrap client and
the match-version flag as they are.  A successful `ClientConfigForVersion` always
ends with the default configuration present, and so does a successful
`ClientForVersion` in every reachable state. -/
theorem default_never_changes (env : Env W) (version : String) (s : State W) :
    (∀ d, s.cache.defaultConfig = some d →
      ((ClientConfigForVersion env version s).2.cache.defaultConfig = some d ∧
        (∃ t, (ClientConfigForVersion env version s).2.trace = s.trace ++ t ∧
          t.countP Event.isLoad = 0) ∧
        (ClientConfigForVersion env version s).2.cache.defaultClient = s.cache.defaultClient ∧
        (ClientConfigForVersion env version s).2.cache.matchVersion = s.cache.matchVersion) ∧
      ((ClientForVersion env version s).2.cache.defaultConfig = some d ∧
        (∃ t, (ClientForVersion env version s).2.trace = s.trace ++ t ∧
          t.countP Event.isLoad = 0) ∧
        (ClientForVersion env version s).2.cache.defaultClient = s.cache.defaultClient ∧
        (ClientForVersion env version s).2.cache.matchVersion = s.cache.matchVersion)) ∧
    (∀ cfg s', ClientConfigForVersion env version s = (.ok cfg, s') →
      s'.cache.defaultConfig ≠ none) ∧
    (Reachable env s → ∀ h s', ClientForVersion env version s = (.ok h, s') →
      s'.cache.defaultConfig ≠ none) := by
  refine ⟨?_, ?_, ?_⟩
  · intro d hd
    obtain ⟨a1, a2⟩ := ClientConfigForVersion_default_kept env version s d hd
    obtain ⟨b1, b2⟩ := ClientForVersion_default_kept env version s d hd
    obtain ⟨_, _, f3, _, _, f6⟩ := ClientConfigForVersion_frame env version s
    obtain ⟨g1, g2, _⟩ := ClientForVersion_keeps env version s
    exact ⟨⟨a1, a2, f6, f3⟩, ⟨b1, b2, g1, g2⟩⟩
  · intro cfg s' h
    obtain ⟨⟨d, hd⟩, _⟩ := ClientConfigForVersion_ok_stored env version s s' cfg h
    simp [hd]
  · intro hr h s' hok
    rcases ClientForVersion_ok env version s s' h hok with
      ⟨hc, rfl⟩ | ⟨_, cfg, s1, w, gv, hc, _, _, rfl⟩
    · obtain ⟨_, i2, i3⟩ := Reachable_inv env s' hr
      obtain ⟨cfg, _, hcfg, _, _⟩ := i2 version h hc
      exact i3 version cfg hcfg
    · obtain ⟨⟨d, hd⟩, _⟩ := ClientConfigForVersion_ok_stored env version s s1 cfg hc
      simp [hd]

/-- C19: in every reachable state the config table is closed under
canonicalisation: the string form `c` of the group-version stored under any key
is itself a key, and the configuration stored under `c` has a group-version
whose string form is `c`. -/
theorem configs_closed_under_canonical (env : Env W) (s : State W) (h : Reachable env s)
    (k : String) (cfg : Config) (hk : s.cache.configs k = some cfg) :
    ∃ gv cfg' gv', cfg.GroupVersion = some gv ∧
      s.cache.configs (env.gvString gv) = some cfg' ∧
      cfg'.GroupVersion = some gv' ∧ env.gvString gv' = env.gvString gv := by
  obtain ⟨gv, hgv, cfg', gv', h1, h2, h3⟩ := (Reachable_inv env s h).1 k cfg hk
  exact ⟨gv, cfg', gv', hgv, h1, h2, h3⟩

/-- Witness for C19: after `ClientForVersion("")` on a fresh cache, the entry under
the empty key has canonical string `v1`. -/
theorem configs_closed_under_canonical_witness :
    Reachable sampleEnv
      (ClientForVersion sampleEnv "" (sampleState false ⟨0, false, false, false⟩)).2 ∧
    (ClientForVersion sampleEnv "" (sampleState false ⟨0, false, false, false⟩)).2.cache.configs ""
      = some ⟨"https://localhost", "kubectl", some ⟨"", "v1"⟩⟩ ∧
    ∃ gv cfg' gv',
      (⟨"https://localhost", "kubectl", some ⟨"", "v1"⟩⟩ : Config).GroupVersion = some gv ∧
      (ClientForVersion sampleEnv ""
        (sampleState false ⟨0, false, false, false⟩)).2.cache.configs (sampleEnv.gvString gv)
        = some cfg' ∧
      cfg'.GroupVersion = some gv' ∧ sampleEnv.gvString gv' = sampleEnv.gvString gv :=
  ⟨Reachable.client _ "" (Reachable.init _ _ _ rfl rfl rfl) (by decide), rfl,
    configs_closed_under_canonical sampleEnv _
      (Reachable.client _ "" (Reachable.init _ _ _ rfl rfl rfl) (by decide)) ""
      ⟨"https://localhost", "kubectl", some ⟨"", "v1"⟩⟩ rfl⟩

/-- C20, amended: in every reachable state, every key of the client table is a key
of the config table whose configuration has a group-version with that key as
string form, and the default configuration is present whenever either table has
an entry (so the fast path of `ClientForVersion` is only taken once a
configuration has been loaded and stored as the default). -/
theorem clients_keyed_canonically (env : Env W) (s : State W) (h : Reachable env s) :
    (∀ k c, s.cache.clients k = some c →
      ∃ cfg gv, s.cache.configs k = some cfg ∧ cfg.GroupVersion = some gv ∧
        env.gvString gv = k) ∧
    ((∃ k, s.cache.configs k ≠ none ∨ s.cache.clients k ≠ none) →
      s.cache.defaultConfig ≠ none) := by
  obtain ⟨_, i2, i3⟩ := Reachable_inv env s h
  refine ⟨i2, ?_⟩
  rintro ⟨k, hk | hk⟩
  · cases hc : s.cache.configs k with
    | none => exact absurd hc hk
    | some cfg => exact i3 k cfg hc
  · cases hc : s.cache.clients k with
    | none => exact absurd hc hk
    | some c =>
      obtain ⟨cfg, _, hcfg, _, _⟩ := i2 k c hc
      exact i3 k cfg hcfg

/-- Witness for C20 amended: the state after `ClientForVersion("")` on a fresh cache. -/
theorem clients_keyed_canonically_witness :
    Reachable sampleEnv
      (ClientForVersion sampleEnv "" (sampleState false ⟨0, false, false, false⟩)).2 ∧
    (ClientForVersion sampleEnv ""
      (sampleState false ⟨0, false, false, false⟩)).2.cache.clients "v1" = some 0 ∧
    (ClientForVersion sampleEnv ""
      (sampleState false ⟨0, false, false, false⟩)).2.cache.defaultConfig ≠ none :=
  ⟨Reachable.client _ "" (Reachable.init _ _ _ rfl rfl rfl) (by decide), rfl,
    (clients_keyed_canonically sampleEnv _
      (Reachable.client _ "" (Reachable.init _ _ _ rfl rfl rfl) (by decide))).2
      ⟨"v1", Or.inr (by decide)⟩⟩

/-- C13 fails as stated: with deterministic collaborators, `v2` first resolves to
`v1`; resolving `v3` then negotiates `v2`, whose string form is the key `v2`, so
line 94 overwrites that entry, and the next `ClientConfigForVersion("v2")`
returns group-version `v2`. -/
theorem canonical_version_drifts :
    (ClientConfigForVersion steppingEnv "v2" steppingState).1 =
      .ok ⟨"https://localhost", "", some ⟨"", "v1"⟩⟩ ∧
    (ClientConfigForVersion steppingEnv "v2"
      (runCalls steppingEnv [.ClientConfigForVersion "v3"]
        (ClientConfigForVersion steppingEnv "v2" steppingState).2)).1 =
      .ok ⟨"https://localhost", "", some ⟨"", "v2"⟩⟩ := by
  decide

/-- C13, amended: when default-filling keeps a set group-version, once
`ClientConfigForVersion(V)` has returned a configuration with group-version `G`,
every later successful `ClientConfigForVersion(V)` returns a configuration with
group-version `G`, whatever calls were made in between (their events are `t`),
provided none of the negotiations in between answered a group-version other than
`G` whose string form is `V`. -/
theorem canonical_version_stable (env : Env W) (hk : KeepsVersion env) (version : String)
    (s s0 : State W) (cfg : Config) (G : GroupVersion)
    (h0 : ClientConfigForVersion env version s = (.ok cfg, s0))
    (hG : cfg.GroupVersion = some G) (calls : List Call) (t : List Event)
    (ht : (runCalls env calls s0).trace = s0.trace ++ t)
    (hc : NoCollision env version G t) (cfg' : Config) (s' : State W)
    (h' : ClientConfigForVersion env version (runCalls env calls s0) = (.ok cfg', s')) :
    cfg'.GroupVersion = some G := by
  obtain ⟨⟨d, hd⟩, hst⟩ := ClientConfigForVersion_ok_stored env version s s0 cfg h0
  have hp0 : Pinned version G s0.cache := ⟨by simp [hd], cfg, hst, hG⟩
  obtain ⟨hd1, c, hc1, hc2⟩ := runCalls_pinned env hk version G calls s0 t hp0 ht hc
  obtain ⟨d1, hd1'⟩ : ∃ d1, (runCalls env calls s0).cache.defaultConfig = some d1 := by
    cases h : (runCalls env calls s0).cache.defaultConfig with
    | none => exact absurd h hd1
    | some d1 => exact ⟨d1, rfl⟩
  have hhit := ClientConfigForVersion_hit env version (runCalls env calls s0) d1 c hd1' hc1
  rw [hhit] at h'
  obtain rfl : c = cfg' := Result.ok.inj (Prod.mk.inj h').1
  exact hc2

/-- Witness for C13 amended: the empty version resolves to `v1`; `v2` is then
resolved and a client for `v1` built; the empty version still yields `v1`. -/
theorem canonical_version_stable_witness :
    KeepsVersion sampleEnv ∧
    ClientConfigForVersion sampleEnv "" (sampleState false ⟨0, false, false, false⟩) =
      (.ok ⟨"https://localhost", "kubectl", some ⟨"", "v1"⟩⟩,
        (ClientConfigForVersion sampleEnv "" (sampleState false ⟨0, false, false, false⟩)).2) ∧
    (ClientConfigForVersion sampleEnv ""
      (runCalls sampleEnv [.ClientConfigForVersion "v2", .ClientForVersion "v1"]
        (ClientConfigForVersion sampleEnv ""
          (sampleState false ⟨0, false, false, false⟩)).2)).1 =
      .ok ⟨"https://localhost", "kubectl", some ⟨"", "v1"⟩⟩ ∧
    (⟨"https://localhost", "kubectl", some ⟨"", "v1"⟩⟩ : Config).GroupVersion =
      some ⟨"", "v1"⟩ :=
  ⟨sampleEnv_keepsVersion, rfl, by decide,
    canonical_version_stable sampleEnv sampleEnv_keepsVersion ""
      (sampleState false ⟨0, false, false, false⟩)
      (ClientConfigForVersion sampleEnv "" (sampleState false ⟨0, false, false, false⟩)).2
      ⟨"https://localhost", "kubectl", some ⟨"", "v1"⟩⟩ ⟨"", "v1"⟩ rfl rfl
      [.ClientConfigForVersion "v2", .ClientForVersion "v1"]
      [Event.ParseGroupVersion "v2" (.ok ⟨"", "v2"⟩),
        Event.ParseGroupVersion "v1" (.ok ⟨"", "v1"⟩),
        Event.ParseGroupVersion "v2" (.ok ⟨"", "v2"⟩),
        Event.NegotiateVersion none ⟨"https://localhost", "", none⟩ (some ⟨"", "v2"⟩)
          [⟨"", "v1"⟩, ⟨"", "v2"⟩] (.ok ⟨"", "v2"⟩),
        Event.New ⟨"https://localhost", "kubectl", some ⟨"", "v1"⟩⟩ (.ok 0)]
      (by decide)
      (fun cl c p r G' hm hs => by
        simp only [List.mem_cons, List.mem_singleton, List.mem_nil_iff, or_false,
          reduceCtorEq, false_or, Event.NegotiateVersion.injEq, Except.ok.injEq] at hm
        obtain ⟨_, _, _, _, rfl⟩ := hm
        exact absurd hs (by decide))
      ⟨"https://localhost", "kubectl", some ⟨"", "v1"⟩⟩
      (ClientConfigForVersion sampleEnv ""
        (runCalls sampleEnv [.ClientConfigForVersion "v2", .ClientForVersion "v1"]
          (ClientConfigForVersion sampleEnv ""
            (sampleState false ⟨0, false, false, false⟩)).2)).2
      rfl⟩

/-- Witness for C16: on a cache that has resolved the empty version, a call for `v2`
keeps the default configuration. -/
theorem default_never_changes_witness :
    (ClientConfigForVersion sampleEnv ""
      (sampleState false ⟨0, false, false, false⟩)).2.cache.defaultConfig =
      some ⟨"https://localhost", "", none⟩ ∧
    (ClientConfigForVersion sampleEnv "v2" (ClientConfigForVersion sampleEnv ""
      (sampleState false ⟨0, false, false, false⟩)).2).2.cache.defaultConfig =
      some ⟨"https://localhost", "", none⟩ ∧
    (ClientForVersion sampleEnv "v2" (ClientConfigForVersion sampleEnv ""
      (sampleState false ⟨0, false, false, false⟩)).2).2.cache.defaultConfig =
      some ⟨"https://localhost", "", none⟩ :=
  ⟨rfl,
    ((default_never_changes sampleEnv "v2" (ClientConfigForVersion sampleEnv ""
      (sampleState false ⟨0, false, false, false⟩)).2).1 _ rfl).1.1,
    ((default_never_changes sampleEnv "v2" (ClientConfigForVersion sampleEnv ""
      (sampleState false ⟨0, false, false, false⟩)).2).1 _ rfl).2.1⟩

/-- C2 fails as stated: over `collidingEnv`, after `a` and `b` have been resolved on a
fresh cache (a reachable state, and default-filling keeps a set group-version),
`ClientConfigForVersion("a")` is a hit that returns the configuration for the
group `apps` at `v1`, whose string form is `apps/v1`; but resolving `b` has
overwritten the entry under `apps/v1` at line 94, so
`ClientConfigForVersion("apps/v1")` returns another configuration. -/
theorem canonical_entry_overwritten :
    Reachable collidingEnv
      (ClientConfigForVersion collidingEnv "b"
        (ClientConfigForVersion collidingEnv "a" collidingState).2).2 ∧
    KeepsVersion collidingEnv ∧
    (ClientConfigForVersion collidingEnv "a"
      (ClientConfigForVersion collidingEnv "b"
        (ClientConfigForVersion collidingEnv "a" collidingState).2).2).1 =
      .ok ⟨"https://localhost", "", some ⟨"apps", "v1"⟩⟩ ∧
    collidingEnv.gvString ⟨"apps", "v1"⟩ = "apps/v1" ∧
    (ClientConfigForVersion collidingEnv "apps/v1"
      (ClientConfigForVersion collidingEnv "a"
        (ClientConfigForVersion collidingEnv "b"
          (ClientConfigForVersion collidingEnv "a" collidingState).2).2).2).1 =
      .ok ⟨"https://localhost", "", some ⟨"", "apps/v1"⟩⟩ ∧
    (⟨"https://localhost", "", some ⟨"", "apps/v1"⟩⟩ : Config) ≠
      ⟨"https://localhost", "", some ⟨"apps", "v1"⟩⟩ :=
  ⟨Reachable.config _ "b"
      (Reachable.config _ "a" (Reachable.init _ _ _ rfl rfl rfl) (by decide)) (by decide),
    fun _ _ h => h, by decide, by decide, by decide, by decide⟩

/-- C20 fails as stated in its last part: with the match-version flag set and a
server whose version does not match, `ClientForVersion("v1")` first returns the
mismatch error, then succeeds and stores a client, and is then served from the
fast path of lines 102-103, although the only version check made has failed. -/
theorem fast_path_after_failed_check :
    Reachable sampleEnv
      (ClientForVersion sampleEnv "v1"
        (ClientForVersion sampleEnv "v1" (sampleState true ⟨0, false, true, false⟩)).2).2 ∧
    (ClientForVersion sampleEnv "v1" (sampleState true ⟨0, false, true, false⟩)).1 =
      .error "server version mismatch" ∧
    (ClientForVersion sampleEnv "v1"
      (ClientForVersion sampleEnv "v1" (sampleState true ⟨0, false, true, false⟩)).2).1 =
      .ok 0 ∧
    (ClientForVersion sampleEnv "v1"
      (ClientForVersion sampleEnv "v1"
        (sampleState true ⟨0, false, true, false⟩)).2).2.cache.clients "v1" = some 0 ∧
    (ClientForVersion sampleEnv "v1"
      (ClientForVersion sampleEnv "v1"
        (ClientForVersion sampleEnv "v1" (sampleState true ⟨0, false, true, false⟩)).2).2).1 =
      .ok 0 ∧
    (ClientForVersion sampleEnv "v1"
      (ClientForVersion sampleEnv "v1"
        (ClientForVersion sampleEnv "v1"
          (sampleState true ⟨0, false, true, false⟩)).2).2).2.cache.matchVersion = true ∧
    (ClientForVersion sampleEnv "v1"
      (ClientForVersion sampleEnv "v1"
        (ClientForVersion sampleEnv "v1"
          (sampleState true ⟨0, false, true, false⟩)).2).2).2.trace.countP Event.isMatch = 1 ∧
    (ClientForVersion sampleEnv "v1"
      (ClientForVersion sampleEnv "v1"
        (ClientForVersion sampleEnv "v1"
          (sampleState true ⟨0, false, true, false⟩)).2).2).2.trace.countP Event.isMatchOk = 0 :=
  ⟨Reachable.client _ "v1"
      (Reachable.client _ "v1" (Reachable.init _ _ _ rfl rfl rfl) (by decide)) (by decide),
    by decide, by decide, by decide, by decide, by decide, by decide, by decide⟩

end KubectlUtil
